import Mathlib

/-!
# MultiComponentDragger

A shallow embedding of `Source/jcf_multi_component_dragger.h`
(class `MultiComponentDragger`) together with the small part of the JUCE
geometry and event API that the class calls.

Conventions of the embedding.

* A `Component*` is a natural-number identity (`CompId`).  A
  `WeakReference<Component>` is an `Option CompId`: `none` is the reference
  of a component that has been deleted (it reads as `nullptr`).
* C++ `int` is embedded as `Int`; signed overflow is undefined behaviour in
  the source and is outside the model.
* The component tree is the `World`: the bounds of every component (relative
  to its parent), its parent, and the log of `repaint()` requests.
* Calling a member function through a null pointer is the fault
  `Fault.nullDereference`; every operation that can do so returns `Except`.
* `jassert` is a debug-only diagnostic that does not change the state; it
  is embedded as a no-op (release build).
-/

namespace MultiComponentDragger

/-! ## JUCE geometry -/

abbrev CompId := Nat

/-- The embedding of `juce::Point<int>`. -/
structure Point where
  x : Int
  y : Int
deriving DecidableEq, Repr

instance : Add Point := ⟨fun a b => ⟨a.x + b.x, a.y + b.y⟩⟩
instance : Sub Point := ⟨fun a b => ⟨a.x - b.x, a.y - b.y⟩⟩

/-- The embedding of `juce::Rectangle<int>`: position, width, height.  The
constructor does not normalise a negative width or height. -/
structure Rectangle where
  x : Int
  y : Int
  w : Int
  h : Int
deriving DecidableEq, Repr

namespace Rectangle

def getX (r : Rectangle) : Int := r.x
def getY (r : Rectangle) : Int := r.y
def getRight (r : Rectangle) : Int := r.x + r.w
def getBottom (r : Rectangle) : Int := r.y + r.h
def getPosition (r : Rectangle) : Point := ⟨r.x, r.y⟩

/-- The embedding of `Rectangle::isEmpty`: `w <= 0 || h <= 0`. -/
def isEmpty (r : Rectangle) : Bool := decide (r.w ≤ 0) || decide (r.h ≤ 0)

/-- The embedding of `Rectangle::operator+ (Point)`: the rectangle moved by
`d`, same size. -/
def translated (r : Rectangle) (d : Point) : Rectangle :=
  ⟨r.x + d.x, r.y + d.y, r.w, r.h⟩

/-- The embedding of `Rectangle::getUnion`: an empty operand is ignored. -/
def getUnion (r other : Rectangle) : Rectangle :=
  if other.isEmpty then r
  else if r.isEmpty then other
  else
    let newX := min r.x other.x
    let newY := min r.y other.y
    ⟨newX, newY,
     max (r.x + r.w) (other.x + other.w) - newX,
     max (r.y + r.h) (other.y + other.h) - newY⟩

end Rectangle

/-- The embedding of `juce::BorderSize<int>`; the constructor's argument
order is top, left, bottom, right. -/
structure BorderSize where
  top : Int
  left : Int
  bottom : Int
  right : Int
deriving DecidableEq, Repr

/-- The embedding of `BorderSize::subtractFrom`: the rectangle with the
border removed from each side. -/
def BorderSize.subtractedFrom (b : BorderSize) (original : Rectangle) : Rectangle :=
  ⟨original.x + b.left, original.y + b.top,
   original.w - (b.left + b.right), original.h - (b.top + b.bottom)⟩

/-! ## Events -/

/-- The modifier flags the dragger reads from `e.mods`. -/
structure ModifierKeys where
  shiftDown : Bool
  commandDown : Bool
  anyMouseButtonDown : Bool
deriving DecidableEq, Repr

/-- The part of `juce::MouseEvent` the dragger reads.  `position` and
`mouseDownPosition` are relative to `eventComponent`;
`distanceFromDragStart` is the value of `getDistanceFromDragStart()`. -/
structure MouseEvent where
  mods : ModifierKeys
  eventComponent : CompId
  position : Point
  mouseDownPosition : Point
  distanceFromDragStart : Int
deriving DecidableEq, Repr

/-! ## The component tree -/

/-- The component tree as far as the dragger sees it. -/
structure World where
  bounds : CompId → Rectangle
  parent : CompId → Option CompId
  repaints : List CompId

/-- The embedding of `Component::repaint`: the request is logged. -/
def World.repaint (w : World) (c : CompId) : World :=
  { w with repaints := w.repaints ++ [c] }

/-- The embedding of `Component::setBounds (Rectangle)`: JUCE stores a
negative width or height as zero. -/
def World.setBounds (w : World) (c : CompId) (r : Rectangle) : World :=
  { w with bounds := fun k =>
      if k = c then ⟨r.x, r.y, if r.w < 0 then 0 else r.w, if r.h < 0 then 0 else r.h⟩
      else w.bounds k }

/-- The embedding of `MouseEvent::getEventRelativeTo` for components that
share a parent and carry no transform: positions are re-expressed in the
coordinate space of `other`. -/
def getEventRelativeTo (w : World) (e : MouseEvent) (other : CompId) : MouseEvent :=
  let shift : Point := (w.bounds e.eventComponent).getPosition - (w.bounds other).getPosition
  { e with eventComponent := other,
           position := e.position + shift,
           mouseDownPosition := e.mouseDownPosition + shift }

/-! ## The dragger -/

inductive Fault where
  | nullDereference
deriving DecidableEq, Repr

/-- The anonymous enum of `constrainedDirection`. -/
inductive Constraint where
  | noConstraint
  | xAxisOnly
  | yAxisOnly
deriving DecidableEq, Repr

/-- The data members of `MultiComponentDragger`. -/
structure Dragger where
  constrainedDirection : Constraint
  constrainToParent : Bool
  shiftConstrainsDirection : Bool
  shiftShowsGuides : Bool
  didJustSelect : Bool
  didStartDragging : Bool
  mouseDownWithinTarget : Point
  totalDragDelta : Point
  areaOfAllComponentsAtDragStart : Rectangle
  selectedComponents : List (Option CompId)
  componentBeingDragged : Option CompId
  amountPermittedOffscreen : BorderSize

/-- A freshly constructed dragger (the member initialisers of the class;
members without an initialiser are given their zero value). -/
def Dragger.initial : Dragger :=
  { constrainedDirection := .noConstraint
    constrainToParent := true
    shiftConstrainsDirection := false
    shiftShowsGuides := true
    didJustSelect := false
    didStartDragging := false
    mouseDownWithinTarget := ⟨0, 0⟩
    totalDragDelta := ⟨0, 0⟩
    areaOfAllComponentsAtDragStart := ⟨0, 0, 0, 0⟩
    selectedComponents := []
    componentBeingDragged := none
    amountPermittedOffscreen := ⟨0, 0, 0, 0⟩ }

def minimumMovementToStartDrag : Int := 10

def setConstrainBoundsToParent (s : Dragger) (shouldConstrainToParentSize : Bool)
    (amountPermittedOffscreen_ : BorderSize) : Dragger :=
  { s with constrainToParent := shouldConstrainToParentSize
           amountPermittedOffscreen := amountPermittedOffscreen_ }

def setShiftConstrainsDirection (s : Dragger) (constrainDirection : Bool) : Dragger :=
  { s with shiftConstrainsDirection := constrainDirection }

/-- The embedding of `isSelected`: `std::find` over the weak references; a
deleted reference compares equal to no live component. -/
def isSelected (s : Dragger) (component : CompId) : Bool :=
  decide (some component ∈ s.selectedComponents)

/-- The embedding of `removeSelectedComponent`: erase-remove of every
reference equal to `component`. -/
def removeSelectedComponent (s : Dragger) (component : CompId) : Dragger :=
  { s with selectedComponents :=
      s.selectedComponents.filter (fun r => decide (r ≠ some component)) }

def setSelected (s : Dragger) (component : CompId) (shouldNowBeSelected : Bool) : Dragger :=
  let isAlreadySelected := isSelected s component
  let s1 :=
    if !isAlreadySelected && shouldNowBeSelected then
      { s with selectedComponents := s.selectedComponents ++ [some component] }
    else s
  if isAlreadySelected && !shouldNowBeSelected then
    removeSelectedComponent s1 component
  else s1

def toggleSelection (s : Dragger) (component : CompId) : Dragger :=
  setSelected s component (!isSelected s component)

/-- The loop of `deselectAll`: `c->repaint()` on every reference, with no
null test. -/
def repaintLoop : List (Option CompId) → World → Except Fault World
  | [], w => .ok w
  | none :: _, _ => .error .nullDereference
  | some c :: rest, w => repaintLoop rest (w.repaint c)

def deselectAll (w : World) (s : Dragger) : Except Fault (World × Dragger) :=
  match repaintLoop s.selectedComponents w with
  | .error f => .error f
  | .ok w1 => .ok (w1, { s with selectedComponents := [] })

/-- The expression `ref->getBounds()` on a weak reference. -/
def derefBounds (w : World) : Option CompId → Except Fault Rectangle
  | none => .error .nullDereference
  | some c => .ok (w.bounds c)

/-- The loop of `getAreaOfSelectedComponents`:
`a = a.getUnion (comp->getBounds())`, with no null test. -/
def unionLoop (w : World) : List (Option CompId) → Rectangle → Except Fault Rectangle
  | [], a => .ok a
  | r :: rest, a =>
    match derefBounds w r with
    | .error f => .error f
    | .ok b => unionLoop w rest (a.getUnion b)

def getAreaOfSelectedComponents (w : World) (s : Dragger) : Except Fault Rectangle :=
  match s.selectedComponents with
  | [] => .ok ⟨0, 0, 0, 0⟩
  | first :: _ =>
    match derefBounds w first with
    | .error f => .error f
    | .ok a => unionLoop w s.selectedComponents a

/-- The embedding of C `abs` on `int`. -/
def iabs (v : Int) : Int := if v < 0 then -v else v

/-- The local `xy` of `applyDirectionConstraints`:
`abs (totalDragDelta.x + delta.x) - abs (totalDragDelta.y + delta.y)`. -/
def dragXY (s : Dragger) (delta : Point) : Int :=
  iabs (s.totalDragDelta.x + delta.x) - iabs (s.totalDragDelta.y + delta.y)

/-- The embedding of `applyDirectionConstraints`: the new lock state and the
constrained delta. -/
def applyDirectionConstraints (s : Dragger) (e : MouseEvent) (delta : Point) :
    Constraint × Point :=
  if s.shiftConstrainsDirection && e.mods.shiftDown then
    let xy := dragXY s delta
    let d1 := if xy > minimumMovementToStartDrag then Constraint.xAxisOnly
              else s.constrainedDirection
    let d2 := if xy < -minimumMovementToStartDrag then Constraint.yAxisOnly else d1
    if (decide (xy > 0) && decide (d2 ≠ Constraint.yAxisOnly))
        || decide (d2 = Constraint.xAxisOnly) then
      (Constraint.xAxisOnly, { delta with y := -s.totalDragDelta.y })
    else if (decide (xy ≤ 0) && decide (d2 ≠ Constraint.xAxisOnly))
        || decide (d2 = Constraint.yAxisOnly) then
      (Constraint.yAxisOnly, { delta with x := -s.totalDragDelta.x })
    else
      (d2, ⟨0, 0⟩)
  else
    (Constraint.noConstraint, delta)

/-- The `constrainToParent` block of `handleMouseDrag`. -/
def constrainDelta (w : World) (s : Dragger) (dragged : CompId) (delta : Point) :
    Except Fault Point :=
  if s.constrainToParent then
    match getAreaOfSelectedComponents w s with
    | .error f => .error f
    | .ok area =>
      match w.parent dragged with
      | none => .error .nullDereference
      | some p =>
        let limit := w.bounds p
        let targetArea := s.amountPermittedOffscreen.subtractedFrom (area.translated delta)
        let dx1 := if targetArea.getX < 0 then delta.x - targetArea.getX else delta.x
        let dy1 := if targetArea.getY < 0 then delta.y - targetArea.getY else delta.y
        let dy2 := if targetArea.getBottom > limit.getBottom
                   then dy1 - (targetArea.getBottom - limit.getBottom) else dy1
        let dx2 := if targetArea.getRight > limit.getRight
                   then dx1 - (targetArea.getRight - limit.getRight) else dx1
        .ok ⟨dx2, dy2⟩
  else .ok delta

/-- The move loop of `handleMouseDrag`: a null reference is skipped. -/
def moveLoop (delta : Point) : List (Option CompId) → World → World
  | [], w => w
  | none :: rest, w => moveLoop delta rest w
  | some c :: rest, w => moveLoop delta rest (w.setBounds c ((w.bounds c).translated delta))

/-- The raw movement of `handleMouseDrag`:
`e.getEventRelativeTo (componentBeingDragged).getPosition() - mouseDownWithinTarget`. -/
def rawDelta (w : World) (s : Dragger) (e : MouseEvent) (dragged : CompId) : Point :=
  (getEventRelativeTo w e dragged).position - s.mouseDownWithinTarget

def handleMouseDrag (w : World) (s : Dragger) (e : MouseEvent) :
    Except Fault (World × Dragger) :=
  if !s.didStartDragging && decide (e.distanceFromDragStart < minimumMovementToStartDrag) then
    .ok (w, s)
  else
    let s1 := { s with didStartDragging := true }
    match s1.componentBeingDragged with
    | none => .error .nullDereference
    | some dragged =>
      let delta := rawDelta w s1 e dragged
      match constrainDelta w s1 dragged delta with
      | .error f => .error f
      | .ok delta1 =>
        let r := applyDirectionConstraints s1 e delta1
        let w1 := moveLoop r.2 s1.selectedComponents w
        .ok (w1, { s1 with constrainedDirection := r.1
                           totalDragDelta := s1.totalDragDelta + r.2 })

def startDragging (w : World) (s : Dragger) (componentToDrag : CompId) (e : MouseEvent) :
    Except Fault Dragger :=
  let s1 := { s with
    mouseDownWithinTarget := (getEventRelativeTo w e componentToDrag).mouseDownPosition
    componentBeingDragged := some componentToDrag
    totalDragDelta := ⟨0, 0⟩
    constrainedDirection := Constraint.noConstraint }
  match getAreaOfSelectedComponents w s1 with
  | .error f => .error f
  | .ok a => .ok { s1 with areaOfAllComponentsAtDragStart := a }

def handleMouseDown (w : World) (s : Dragger) (component : CompId) (e : MouseEvent) :
    Except Fault (World × Dragger) :=
  let selected : Except Fault (World × Dragger) :=
    if !isSelected s component then
      let cleared : Except Fault (World × Dragger) :=
        if !(e.mods.shiftDown || e.mods.commandDown) then deselectAll w s else .ok (w, s)
      match cleared with
      | .error f => .error f
      | .ok (w1, s1) => .ok (w1, { setSelected s1 component true with didJustSelect := true })
    else .ok (w, s)
  match selected with
  | .error f => .error f
  | .ok (w2, s2) =>
    match startDragging w2 s2 component e with
    | .error f => .error f
    | .ok s3 => .ok (w2.repaint component, s3)

/-- Modelled from the spec: `removeGuides` is called by `handleMouseUp` but
is not defined in the header; the spec says it clears transient visual
guides, of which the dragger keeps no state. -/
def removeGuides (s : Dragger) : Dragger := s

def handleMouseUp (w : World) (s : Dragger) (component : CompId) (_e : MouseEvent) :
    World × Dragger :=
  let s1 :=
    if s.didStartDragging then { s with didStartDragging := false }
    else if !s.didJustSelect && isSelected s component then setSelected s component false
    else s
  let s2 := { s1 with didJustSelect := false }
  (w.repaint component, removeGuides s2)

/-- The environment deleting a component: every weak reference to it reads
as null from then on. -/
def deleteComponent (s : Dragger) (c : CompId) : Dragger :=
  { s with selectedComponents :=
      s.selectedComponents.map (fun r => if r = some c then none else r) }

/-- A run of drag events, each handled by `handleMouseDrag` in turn. -/
def dragAll (w : World) (s : Dragger) : List MouseEvent → Except Fault (World × Dragger)
  | [] => .ok (w, s)
  | e :: rest =>
    match handleMouseDrag w s e with
    | .error f => .error f
    | .ok (w1, s1) => dragAll w1 s1 rest

/-- A whole gesture on one component: pointer-down, the drag events, then
pointer-up. -/
def gesture (w : World) (s : Dragger) (component : CompId) (down : MouseEvent)
    (drags : List MouseEvent) (up : MouseEvent) : Except Fault (World × Dragger) :=
  match handleMouseDown w s component down with
  | .error f => .error f
  | .ok (w1, s1) =>
    match dragAll w1 s1 drags with
    | .error f => .error f
    | .ok (w2, s2) => .ok (handleMouseUp w2 s2 component up)

/-- The embedding of `Component::getLocalBounds`: the rectangle of a
component in its own coordinate space, the space its children's bounds are
given in. -/
def getLocalBounds (w : World) (c : CompId) : Rectangle :=
  ⟨0, 0, (w.bounds c).w, (w.bounds c).h⟩

/-- A drag is under way on component `g` and a processed drag step cannot
fault: the dragged component is set, the drag has started, and when clamping
is on every selected reference is live and `g` has a parent. -/
def DragReady (w : World) (s : Dragger) (g : CompId) : Prop :=
  s.componentBeingDragged = some g ∧ s.didStartDragging = true
    ∧ (s.constrainToParent = true →
        none ∉ s.selectedComponents ∧ ∃ p, w.parent g = some p)

/-- What one drag step with the axis lock applied does to the lock, from
dragger `s1` with clamped delta `d1` to dragger `s2`: the lock is kept, and
the running total on the other axis is zero, unless `xy` is beyond the
threshold in favour of the other axis; beyond the threshold the lock goes
to the favoured axis. -/
def LockStep (s1 : Dragger) (d1 : Point) (s2 : Dragger) : Prop :=
  (s1.constrainedDirection = Constraint.xAxisOnly → -10 ≤ dragXY s1 d1 →
      s2.constrainedDirection = Constraint.xAxisOnly ∧ s2.totalDragDelta.y = 0)
  ∧ (s1.constrainedDirection = Constraint.yAxisOnly → dragXY s1 d1 ≤ 10 →
      s2.constrainedDirection = Constraint.yAxisOnly ∧ s2.totalDragDelta.x = 0)
  ∧ (10 < dragXY s1 d1 →
      s2.constrainedDirection = Constraint.xAxisOnly ∧ s2.totalDragDelta.y = 0)
  ∧ (dragXY s1 d1 < -10 →
      s2.constrainedDirection = Constraint.yAxisOnly ∧ s2.totalDragDelta.x = 0)

/-- The three branches of the `if / else if / else` of
`applyDirectionConstraints` that follows the two threshold assignments. -/
inductive LockBranch where
  | xOnly
  | yOnly
  | neither
deriving DecidableEq, Repr

/-- Which branch of `applyDirectionConstraints` is taken when the axis lock
is applied: the conditions of the source, on the same `xy` and on the
direction left by the two threshold assignments. -/
def lockBranch (s : Dragger) (delta : Point) : LockBranch :=
  let xy := dragXY s delta
  let d1 := if xy > minimumMovementToStartDrag then Constraint.xAxisOnly
            else s.constrainedDirection
  let d2 := if xy < -minimumMovementToStartDrag then Constraint.yAxisOnly else d1
  if (decide (xy > 0) && decide (d2 ≠ Constraint.yAxisOnly))
      || decide (d2 = Constraint.xAxisOnly) then
    LockBranch.xOnly
  else if (decide (xy ≤ 0) && decide (d2 ≠ Constraint.xAxisOnly))
      || decide (d2 = Constraint.yAxisOnly) then
    LockBranch.yOnly
  else
    LockBranch.neither

/-- One call of the public interface of the dragger on a live component. -/
inductive Call where
  | setSelected (component : CompId) (shouldNowBeSelected : Bool)
  | toggleSelection (component : CompId)
  | deselectAll
  | handleMouseDown (component : CompId) (e : MouseEvent)
  | handleMouseUp (component : CompId) (e : MouseEvent)
  | handleMouseDrag (e : MouseEvent)

/-- The effect of one call on the tree and the dragger. -/
def applyCall (w : World) (s : Dragger) : Call → Except Fault (World × Dragger)
  | Call.setSelected c flag => .ok (w, setSelected s c flag)
  | Call.toggleSelection c => .ok (w, toggleSelection s c)
  | Call.deselectAll => deselectAll w s
  | Call.handleMouseDown c e => handleMouseDown w s c e
  | Call.handleMouseUp c e => .ok (handleMouseUp w s c e)
  | Call.handleMouseDrag e => handleMouseDrag w s e

/-- The states reached by a sequence of calls, one after each call that
returns; the sequence stops at the first call that faults. -/
def reached (w : World) (s : Dragger) : List Call → List (World × Dragger)
  | [] => []
  | c :: rest =>
    match applyCall w s c with
    | .error _ => []
    | .ok (w1, s1) => (w1, s1) :: reached w1 s1 rest

/-- The state of a gesture on component `g` that started from the tree
`w0`: the dragged component is set, the selection holds live references,
each once, a clamped step can find the parent of `g`, every selected item
sits at its position in `w0` moved by the running total with its size in
`w0`, and every other item is where it was in `w0`. -/
def GestureInv (w0 w : World) (s : Dragger) (g : CompId) : Prop :=
  s.componentBeingDragged = some g
    ∧ none ∉ s.selectedComponents
    ∧ s.selectedComponents.Nodup
    ∧ (s.constrainToParent = true → ∃ p, w.parent g = some p)
    ∧ (∀ k, 0 ≤ (w0.bounds k).w ∧ 0 ≤ (w0.bounds k).h)
    ∧ (∀ k, some k ∈ s.selectedComponents →
        w.bounds k = (w0.bounds k).translated s.totalDragDelta)
    ∧ (∀ k, some k ∉ s.selectedComponents → w.bounds k = w0.bounds k)

/-! ## Concrete scenarios -/

/-- The tree of the spec's example: component 0 is the parent (600 x 400 at
the origin), components 1 and 2 are 30 x 30 boxes at (0,0) and (100,100). -/
def demoWorld : World :=
  { bounds := fun k =>
      if k = 0 then ⟨0, 0, 600, 400⟩
      else if k = 1 then ⟨0, 0, 30, 30⟩
      else if k = 2 then ⟨100, 100, 30, 30⟩
      else ⟨0, 0, 0, 0⟩
    parent := fun k => if k = 0 then none else some 0
    repaints := [] }

/-- A parent 100 x 100 at the origin (component 0) holding a box 200 wide
(component 1). -/
def wideWorld : World :=
  { bounds := fun k => if k = 0 then ⟨0, 0, 100, 100⟩ else ⟨0, 0, 200, 30⟩
    parent := fun k => if k = 0 then none else some 0
    repaints := [] }

/-- A parent 100 x 100 placed at (50,50) within its own parent (component
0) holding a 30 x 30 box at its top-left corner (component 1). -/
def offsetWorld : World :=
  { bounds := fun k => if k = 0 then ⟨50, 50, 100, 100⟩ else ⟨0, 0, 30, 30⟩
    parent := fun k => if k = 0 then none else some 0
    repaints := [] }

/-- A pointer event delivered to component `c`, pressed at (3,4) within it,
now at `pos` within it, `dist` units from the press. -/
def pointerAt (c : CompId) (shift command : Bool) (pos : Point) (dist : Int) : MouseEvent :=
  { mods := ⟨shift, command, true⟩
    eventComponent := c
    position := pos
    mouseDownPosition := ⟨3, 4⟩
    distanceFromDragStart := dist }

/-- A dragger holding component `c` (pressed at (3,4) within it) with the
given selection, a drag under way with running total `total`. -/
def draggingWith (sel : List (Option CompId)) (c : CompId) (clamp lockOn : Bool)
    (lock : Constraint) (total : Point) : Dragger :=
  { Dragger.initial with
    selectedComponents := sel
    componentBeingDragged := some c
    mouseDownWithinTarget := ⟨3, 4⟩
    didStartDragging := true
    constrainToParent := clamp
    shiftConstrainsDirection := lockOn
    constrainedDirection := lock
    totalDragDelta := total }

/-- A press on box 1, a shift-press on box 2, a drag, the release, and then
calls of the selection interface. -/
def demoCalls : List Call :=
  [Call.handleMouseDown 1 (pointerAt 1 false false ⟨3, 4⟩ 0),
   Call.handleMouseUp 1 (pointerAt 1 false false ⟨3, 4⟩ 0),
   Call.handleMouseDown 2 (pointerAt 2 true false ⟨3, 4⟩ 0),
   Call.handleMouseDrag (pointerAt 2 true false ⟨15, 4⟩ 12),
   Call.handleMouseUp 2 (pointerAt 2 true false ⟨3, 4⟩ 12),
   Call.toggleSelection 1,
   Call.setSelected 1 true,
   Call.setSelected 2 true,
   Call.deselectAll]

/-- An idle dragger with the given selection, clamping off. -/
def idleWith (sel : List (Option CompId)) : Dragger :=
  { Dragger.initial with selectedComponents := sel, constrainToParent := false }

/-! ## Basic facts about the geometry and the selection list -/

@[simp] theorem Point.add_x (a b : Point) : (a + b).x = a.x + b.x := rfl
@[simp] theorem Point.add_y (a b : Point) : (a + b).y = a.y + b.y := rfl
@[simp] theorem Point.sub_x (a b : Point) : (a - b).x = a.x - b.x := rfl
@[simp] theorem Point.sub_y (a b : Point) : (a - b).y = a.y - b.y := rfl


theorem isSelected_iff (s : Dragger) (c : CompId) :
    isSelected s c = true ↔ some c ∈ s.selectedComponents := by
  simp [isSelected]

theorem isSelected_false_iff (s : Dragger) (c : CompId) :
    isSelected s c = false ↔ some c ∉ s.selectedComponents := by
  simp [isSelected]

theorem repaintLoop_live (sel : List (Option CompId)) (w : World) (h : none ∉ sel) :
    ∃ w1, repaintLoop sel w = .ok w1 ∧ w1.bounds = w.bounds ∧ w1.parent = w.parent := by
  induction sel generalizing w with
  | nil => exact ⟨w, rfl, rfl, rfl⟩
  | cons r rest ih =>
    cases r with
    | none => simp at h
    | some c =>
      have hrest : none ∉ rest := fun hm => h (List.mem_cons_of_mem _ hm)
      obtain ⟨w1, h1, h2, h3⟩ := ih (w.repaint c) hrest
      exact ⟨w1, by simpa [repaintLoop] using h1, h2, h3⟩

theorem unionLoop_live (w : World) (sel : List (Option CompId)) (a : Rectangle)
    (h : none ∉ sel) : ∃ r, unionLoop w sel a = .ok r := by
  induction sel generalizing a with
  | nil => exact ⟨a, rfl⟩
  | cons r rest ih =>
    cases r with
    | none => simp at h
    | some c =>
      have hrest : none ∉ rest := fun hm => h (List.mem_cons_of_mem _ hm)
      obtain ⟨r1, h1⟩ := ih (a.getUnion (w.bounds c)) hrest
      exact ⟨r1, by simpa [unionLoop, derefBounds] using h1⟩

theorem getArea_live (w : World) (s : Dragger) (h : none ∉ s.selectedComponents) :
    ∃ r, getAreaOfSelectedComponents w s = .ok r := by
  unfold getAreaOfSelectedComponents
  cases hs : s.selectedComponents with
  | nil => exact ⟨_, rfl⟩
  | cons r rest =>
    cases r with
    | none => rw [hs] at h; simp at h
    | some c =>
      obtain ⟨r1, h1⟩ := unionLoop_live w (some c :: rest) (w.bounds c) (hs ▸ h)
      exact ⟨r1, by simpa [derefBounds] using h1⟩

theorem startDragging_live (w : World) (s : Dragger) (c : CompId) (e : MouseEvent)
    (h : none ∉ s.selectedComponents) :
    ∃ s1, startDragging w s c e = .ok s1 ∧ s1.selectedComponents = s.selectedComponents
      ∧ s1.didJustSelect = s.didJustSelect ∧ s1.didStartDragging = s.didStartDragging
      ∧ s1.totalDragDelta = ⟨0, 0⟩ ∧ s1.constrainedDirection = Constraint.noConstraint
      ∧ s1.componentBeingDragged = some c := by
  unfold startDragging
  obtain ⟨r, hr⟩ := getArea_live w
    { s with
      mouseDownWithinTarget := (getEventRelativeTo w e c).mouseDownPosition
      componentBeingDragged := some c
      totalDragDelta := ⟨0, 0⟩
      constrainedDirection := Constraint.noConstraint } h
  simp only [hr]
  exact ⟨_, rfl, rfl, rfl, rfl, rfl, rfl, rfl⟩

/-! ## Pointer-down and pointer-up -/

/-- C1: pointer-down on an unselected item with neither shift nor command
held, on any prior selection of live references, returns with the selection
list holding exactly that item: it is selected and no other item is. -/
theorem handleMouseDown_unselected_replaces (w : World) (s : Dragger) (c : CompId)
    (e : MouseEvent) (hlive : none ∉ s.selectedComponents)
    (hsel : isSelected s c = false)
    (hshift : e.mods.shiftDown = false) (hcmd : e.mods.commandDown = false) :
    ∃ w1 s1, handleMouseDown w s c e = .ok (w1, s1)
      ∧ s1.selectedComponents = [some c]
      ∧ isSelected s1 c = true
      ∧ ∀ k, k ≠ c → isSelected s1 k = false := by
  obtain ⟨wr, hr, -, -⟩ := repaintLoop_live s.selectedComponents w hlive
  have hset : (setSelected { s with selectedComponents := [] } c true).selectedComponents
      = [some c] := by simp [setSelected, isSelected]
  obtain ⟨s3, h3, hsel3, -⟩ := startDragging_live wr
    { setSelected { s with selectedComponents := [] } c true with didJustSelect := true }
    c e (by simp [hset])
  have hs3 : s3.selectedComponents = [some c] := by rw [hsel3]; exact hset
  refine ⟨wr.repaint c, s3, ?_, hs3, ?_, ?_⟩
  · simp [handleMouseDown, hsel, hshift, hcmd, deselectAll, hr, h3]
  · simp [isSelected, hs3]
  · intro k hk
    simp [isSelected, hs3, hk]

theorem handleMouseDown_unselected_replaces_witness :
    ∃ w1 s1, handleMouseDown demoWorld (idleWith [some 2]) 1
        (pointerAt 1 false false ⟨3, 4⟩ 0) = .ok (w1, s1)
      ∧ s1.selectedComponents = [some 1]
      ∧ isSelected s1 1 = true
      ∧ ∀ k, k ≠ 1 → isSelected s1 k = false :=
  handleMouseDown_unselected_replaces demoWorld (idleWith [some 2]) 1
    (pointerAt 1 false false ⟨3, 4⟩ 0) (by decide) (by decide) rfl rfl

/-- C2: pointer-down on an unselected item with shift or command held, on
any prior selection of live references, returns with the item appended to
the selection list: every previously selected item is still selected, the
pressed item is selected, and no other item is. -/
theorem handleMouseDown_unselected_extends (w : World) (s : Dragger) (c : CompId)
    (e : MouseEvent) (hlive : none ∉ s.selectedComponents)
    (hsel : isSelected s c = false)
    (hmod : e.mods.shiftDown = true ∨ e.mods.commandDown = true) :
    ∃ w1 s1, handleMouseDown w s c e = .ok (w1, s1)
      ∧ s1.selectedComponents = s.selectedComponents ++ [some c]
      ∧ isSelected s1 c = true
      ∧ (∀ k, isSelected s k = true → isSelected s1 k = true)
      ∧ ∀ k, k ≠ c → isSelected s k = false → isSelected s1 k = false := by
  have hset : (setSelected s c true).selectedComponents = s.selectedComponents ++ [some c] := by
    simp [setSelected, hsel]
  obtain ⟨s3, h3, hsel3, -⟩ := startDragging_live w
    { setSelected s c true with didJustSelect := true } c e (by simp [hset, hlive])
  have hs3 : s3.selectedComponents = s.selectedComponents ++ [some c] := by
    rw [hsel3]; exact hset
  have hmod1 : (e.mods.shiftDown || e.mods.commandDown) = true := by
    rcases hmod with h | h <;> simp [h]
  refine ⟨w.repaint c, s3, ?_, hs3, ?_, ?_, ?_⟩
  · simp [handleMouseDown, hsel, hmod1, h3]
  · simp [isSelected, hs3]
  · intro k hk
    rw [isSelected_iff] at hk ⊢
    rw [hs3]
    exact List.mem_append_left _ hk
  · intro k hk hks
    rw [isSelected_false_iff] at hks ⊢
    rw [hs3]
    simp [hks, hk]

theorem handleMouseDown_unselected_extends_witness :
    ∃ w1 s1, handleMouseDown demoWorld (idleWith [some 2]) 1
        (pointerAt 1 true false ⟨3, 4⟩ 0) = .ok (w1, s1)
      ∧ s1.selectedComponents = [some 2] ++ [some 1]
      ∧ isSelected s1 1 = true
      ∧ (∀ k, isSelected (idleWith [some 2]) k = true → isSelected s1 k = true)
      ∧ ∀ k, k ≠ 1 → isSelected (idleWith [some 2]) k = false → isSelected s1 k = false :=
  handleMouseDown_unselected_extends demoWorld (idleWith [some 2]) 1
    (pointerAt 1 true false ⟨3, 4⟩ 0) (by decide) (by decide) (Or.inl rfl)

theorem setSelected_selectedComponents (s : Dragger) (c : CompId) (flag : Bool) :
    (setSelected s c flag).selectedComponents =
      if isSelected s c then
        (if flag then s.selectedComponents
         else s.selectedComponents.filter (fun r => decide (r ≠ some c)))
      else
        (if flag then s.selectedComponents ++ [some c] else s.selectedComponents) := by
  cases hsel : isSelected s c <;> cases flag <;> simp [setSelected, hsel, removeSelectedComponent]

theorem handleMouseUp_selectedComponents (w : World) (s : Dragger) (c : CompId)
    (e : MouseEvent) :
    isSelected (handleMouseUp w s c e).2 = fun k =>
      decide (some k ∈
        (if s.didStartDragging then s.selectedComponents
         else if s.didJustSelect then s.selectedComponents
         else if isSelected s c then s.selectedComponents.filter (fun r => decide (r ≠ some c))
         else s.selectedComponents)) := by
  funext k
  have hset := setSelected_selectedComponents s c false
  cases hd : s.didStartDragging <;> cases hj : s.didJustSelect <;>
    cases hsel : isSelected s c <;>
    simp only [hsel, if_true, Bool.false_eq_true, if_false] at hset <;>
    simp [handleMouseUp, removeGuides, hd, hj, hsel, hset] <;>
    simp [isSelected]

theorem handleMouseDown_selected (w : World) (s : Dragger) (c : CompId)
    (e : MouseEvent) (hlive : none ∉ s.selectedComponents)
    (hsel : isSelected s c = true) :
    ∃ s1, handleMouseDown w s c e = .ok (w.repaint c, s1)
      ∧ s1.selectedComponents = s.selectedComponents
      ∧ s1.didJustSelect = s.didJustSelect
      ∧ s1.didStartDragging = s.didStartDragging := by
  obtain ⟨s3, h3, hsel3, hj, hd, -⟩ := startDragging_live w s c e hlive
  exact ⟨s3, by simp [handleMouseDown, hsel, h3], hsel3, hj, hd⟩

theorem dragAll_below_threshold (w : World) (s : Dragger) (drags : List MouseEvent)
    (hidle : s.didStartDragging = false)
    (hsmall : ∀ d ∈ drags, d.distanceFromDragStart < 10) :
    dragAll w s drags = .ok (w, s) := by
  induction drags with
  | nil => rfl
  | cons d rest ih =>
    have hd : d.distanceFromDragStart < 10 := hsmall d (List.mem_cons_self _ _)
    have hstep : handleMouseDrag w s d = .ok (w, s) := by
      simp [handleMouseDrag, hidle, minimumMovementToStartDrag, hd]
    simp only [dragAll, hstep]
    exact ih (fun d1 h1 => hsmall d1 (List.mem_cons_of_mem _ h1))

/-- C3: click-to-deselect.  From an idle dragger (no drag started, the
just-selected flag clear) in which the item is selected, pointer-down on the
item, any drag events each less than 10 units from the press, and pointer-up
on the item leave the item unselected and every other item as it was. -/
theorem click_on_selected_deselects (w : World) (s : Dragger) (c : CompId)
    (down up : MouseEvent) (drags : List MouseEvent)
    (hlive : none ∉ s.selectedComponents)
    (hidle : s.didStartDragging = false) (hjust : s.didJustSelect = false)
    (hsel : isSelected s c = true)
    (hsmall : ∀ d ∈ drags, d.distanceFromDragStart < 10) :
    ∃ w1 s1, gesture w s c down drags up = .ok (w1, s1)
      ∧ isSelected s1 c = false
      ∧ ∀ k, k ≠ c → isSelected s1 k = isSelected s k := by
  obtain ⟨s2, h2, hsel2, hj2, hd2⟩ := handleMouseDown_selected w s c down hlive hsel
  have hdr := dragAll_below_threshold (w.repaint c) s2 drags (hd2.trans hidle) hsmall
  have hsel2c : isSelected s2 c = true := by
    rw [isSelected_iff] at hsel ⊢; rw [hsel2]; exact hsel
  have hg : gesture w s c down drags up = .ok (handleMouseUp (w.repaint c) s2 c up) := by
    simp only [gesture, h2, hdr]
  refine ⟨(handleMouseUp (w.repaint c) s2 c up).1, (handleMouseUp (w.repaint c) s2 c up).2,
    hg, ?_, ?_⟩
  · rw [handleMouseUp_selectedComponents, hd2, hidle, hj2, hjust, hsel2c]
    simp
  · intro k hk
    have hne : ¬ (some k = some c) := by simpa using hk
    rw [handleMouseUp_selectedComponents, hd2, hidle, hj2, hjust, hsel2c]
    simp [hsel2, List.mem_filter, hne, isSelected]

theorem click_on_selected_deselects_witness :
    ∃ w1 s1, gesture demoWorld (idleWith [some 1, some 2]) 1
        (pointerAt 1 false false ⟨3, 4⟩ 0) [pointerAt 1 false false ⟨5, 4⟩ 2]
        (pointerAt 1 false false ⟨5, 4⟩ 2) = .ok (w1, s1)
      ∧ isSelected s1 1 = false
      ∧ ∀ k, k ≠ 1 → isSelected s1 k = isSelected (idleWith [some 1, some 2]) k :=
  click_on_selected_deselects demoWorld (idleWith [some 1, some 2]) 1
    (pointerAt 1 false false ⟨3, 4⟩ 0) (pointerAt 1 false false ⟨5, 4⟩ 2)
    [pointerAt 1 false false ⟨5, 4⟩ 2] (by decide) rfl rfl (by decide) (by decide)

theorem handleMouseDown_unselected (w : World) (s : Dragger) (c : CompId)
    (e : MouseEvent) (hlive : none ∉ s.selectedComponents)
    (hsel : isSelected s c = false) :
    ∃ w1 s1, handleMouseDown w s c e = .ok (w1, s1)
      ∧ some c ∈ s1.selectedComponents
      ∧ s1.didJustSelect = true
      ∧ s1.didStartDragging = s.didStartDragging := by
  obtain ⟨wr, hr, -, -⟩ := repaintLoop_live s.selectedComponents w hlive
  cases hmod : (e.mods.shiftDown || e.mods.commandDown)
  · have hset : (setSelected { s with selectedComponents := [] } c true).selectedComponents
        = [some c] := by simp [setSelected, isSelected]
    obtain ⟨s3, h3, hsel3, hj3, hd3, -⟩ := startDragging_live wr
      { setSelected { s with selectedComponents := [] } c true with didJustSelect := true }
      c e (by simp [hset])
    refine ⟨wr.repaint c, s3, ?_, ?_, hj3, ?_⟩
    · simp [handleMouseDown, hsel, hmod, deselectAll, hr, h3]
    · rw [hsel3]; simp [hset]
    · rw [hd3]; simp [setSelected, isSelected]
  · have hset : (setSelected s c true).selectedComponents = s.selectedComponents ++ [some c] := by
      simp [setSelected, hsel]
    obtain ⟨s3, h3, hsel3, hj3, hd3, -⟩ := startDragging_live w
      { setSelected s c true with didJustSelect := true } c e (by simp [hset, hlive])
    refine ⟨w.repaint c, s3, ?_, ?_, hj3, ?_⟩
    · simp [handleMouseDown, hsel, hmod, h3]
    · rw [hsel3]; simp [hset]
    · rw [hd3]; simp [setSelected, hsel]

/-- C4: a fresh selection is not undone by the release.  From a dragger
with no drag started in which the item is not selected, pointer-down on the
item, any drag events that do not start a drag (each less than 10 units
from the press), and pointer-up on the item leave the item selected, with
any modifier keys on any of the events. -/
theorem fresh_selection_survives_release (w : World) (s : Dragger) (c : CompId)
    (down up : MouseEvent) (drags : List MouseEvent)
    (hlive : none ∉ s.selectedComponents)
    (hidle : s.didStartDragging = false)
    (hsel : isSelected s c = false)
    (hsmall : ∀ d ∈ drags, d.distanceFromDragStart < 10) :
    ∃ w1 s1, gesture w s c down drags up = .ok (w1, s1) ∧ isSelected s1 c = true := by
  obtain ⟨w2, s2, h2, hmem, hj2, hd2⟩ := handleMouseDown_unselected w s c down hlive hsel
  have hdr := dragAll_below_threshold w2 s2 drags (hd2.trans hidle) hsmall
  have hg : gesture w s c down drags up = .ok (handleMouseUp w2 s2 c up) := by
    simp only [gesture, h2, hdr]
  refine ⟨(handleMouseUp w2 s2 c up).1, (handleMouseUp w2 s2 c up).2, hg, ?_⟩
  rw [handleMouseUp_selectedComponents, hd2, hidle, hj2]
  simpa using hmem

theorem fresh_selection_survives_release_witness :
    ∃ w1 s1, gesture demoWorld (idleWith [some 2]) 1
        (pointerAt 1 false false ⟨3, 4⟩ 0) [] (pointerAt 1 false false ⟨3, 4⟩ 0) = .ok (w1, s1)
      ∧ isSelected s1 1 = true :=
  fresh_selection_survives_release demoWorld (idleWith [some 2]) 1
    (pointerAt 1 false false ⟨3, 4⟩ 0) (pointerAt 1 false false ⟨3, 4⟩ 0) []
    (by decide) rfl (by decide) (by simp)

/-- C10: pointer-up after a drag has started leaves the selection list
exactly as it was (same references, same order), whether or not the item is
selected, and ends the drag: the drag-started and just-selected flags are
both false afterwards. -/
theorem handleMouseUp_after_drag (w : World) (s : Dragger) (c : CompId) (e : MouseEvent)
    (hdrag : s.didStartDragging = true) :
    (handleMouseUp w s c e).2.selectedComponents = s.selectedComponents
      ∧ (handleMouseUp w s c e).2.didStartDragging = false
      ∧ (handleMouseUp w s c e).2.didJustSelect = false := by
  simp [handleMouseUp, removeGuides, hdrag]

theorem handleMouseUp_after_drag_witness :
    (handleMouseUp demoWorld
        (draggingWith [some 1, some 2] 1 false false Constraint.noConstraint ⟨12, 0⟩) 1
        (pointerAt 1 false false ⟨3, 4⟩ 12)).2.selectedComponents = [some 1, some 2]
      ∧ (handleMouseUp demoWorld
        (draggingWith [some 1, some 2] 1 false false Constraint.noConstraint ⟨12, 0⟩) 1
        (pointerAt 1 false false ⟨3, 4⟩ 12)).2.didStartDragging = false
      ∧ (handleMouseUp demoWorld
        (draggingWith [some 1, some 2] 1 false false Constraint.noConstraint ⟨12, 0⟩) 1
        (pointerAt 1 false false ⟨3, 4⟩ 12)).2.didJustSelect = false :=
  handleMouseUp_after_drag demoWorld
    (draggingWith [some 1, some 2] 1 false false Constraint.noConstraint ⟨12, 0⟩) 1
    (pointerAt 1 false false ⟨3, 4⟩ 12) rfl

/-! ## The drag step -/

theorem moveLoop_parent (d : Point) (sel : List (Option CompId)) (w : World) :
    (moveLoop d sel w).parent = w.parent ∧ (moveLoop d sel w).repaints = w.repaints := by
  induction sel generalizing w with
  | nil => exact ⟨rfl, rfl⟩
  | cons r rest ih =>
    cases r with
    | none => exact ih w
    | some c => exact ih _

theorem moveLoop_bounds_of_not_mem (d : Point) (sel : List (Option CompId)) (w : World)
    (c : CompId) (h : some c ∉ sel) : (moveLoop d sel w).bounds c = w.bounds c := by
  induction sel generalizing w with
  | nil => rfl
  | cons r rest ih =>
    have hrest : some c ∉ rest := fun hm => h (List.mem_cons_of_mem _ hm)
    cases r with
    | none => exact ih w hrest
    | some k =>
      have hck : c ≠ k := fun hk => h (by simp [hk])
      rw [moveLoop, ih _ hrest]
      simp [World.setBounds, hck]

theorem moveLoop_bounds_of_mem (d : Point) (sel : List (Option CompId)) (w : World)
    (c : CompId) (huniq : sel.reduceOption.Nodup) (h : some c ∈ sel)
    (hw : 0 ≤ (w.bounds c).w) (hh : 0 ≤ (w.bounds c).h) :
    (moveLoop d sel w).bounds c = (w.bounds c).translated d := by
  induction sel generalizing w with
  | nil => simp at h
  | cons r rest ih =>
    cases r with
    | none =>
      rw [List.reduceOption_cons_of_none] at huniq
      exact ih w huniq (by simpa using h) hw hh
    | some k =>
      rw [List.reduceOption_cons_of_some, List.nodup_cons] at huniq
      have hnot : some k ∉ rest := fun hm => huniq.1 (List.reduceOption_mem_iff.mpr hm)
      by_cases hck : k = c
      · subst hck
        rw [moveLoop, moveLoop_bounds_of_not_mem d rest _ k hnot]
        simp [World.setBounds, Rectangle.translated, not_lt.mpr hw, not_lt.mpr hh]
      · have hne : ¬ (some k = some c) := by simpa using hck
        have hm : some c ∈ rest := by
          rcases List.mem_cons.mp h with h1 | h1
          · exact absurd h1.symm hne
          · exact h1
        have hb : (w.setBounds k ((w.bounds k).translated d)).bounds c = w.bounds c := by
          simp [World.setBounds, Ne.symm hck]
        rw [moveLoop, ih _ huniq.2 hm (hb ▸ hw) (hb ▸ hh), hb]

theorem handleMouseDrag_processed (w : World) (s : Dragger) (e : MouseEvent) (g : CompId)
    (d1 : Point)
    (hproc : s.didStartDragging = true ∨ 10 ≤ e.distanceFromDragStart)
    (hg : s.componentBeingDragged = some g)
    (hc : constrainDelta w s g (rawDelta w s e g) = .ok d1) :
    handleMouseDrag w s e = .ok
      (moveLoop (applyDirectionConstraints s e d1).2 s.selectedComponents w,
       { s with didStartDragging := true
                constrainedDirection := (applyDirectionConstraints s e d1).1
                totalDragDelta := s.totalDragDelta + (applyDirectionConstraints s e d1).2 }) := by
  have hgo : (!s.didStartDragging && decide (e.distanceFromDragStart < minimumMovementToStartDrag))
      = false := by
    rcases hproc with h | h
    · simp [h]
    · simp [minimumMovementToStartDrag, not_lt.mpr h]
  have hc1 : constrainDelta w { s with didStartDragging := true } g
      (rawDelta w { s with didStartDragging := true } e g) = .ok d1 := hc
  unfold handleMouseDrag
  simp only [hgo, Bool.false_eq_true, if_false]
  split
  · next hnone => exact absurd (hg.symm.trans hnone) (by simp)
  · next dragged hsome =>
    have hdg : g = dragged := Option.some.inj (hg.symm.trans hsome)
    subst hdg
    split
    · next f herr => exact absurd (hc1.symm.trans herr) (by simp)
    · next delta1 hok =>
      have hd : d1 = delta1 := Except.ok.inj (hc1.symm.trans hok)
      subst hd
      rfl

/-- C5: with clamping off and no axis lock applied (axis-lock disabled or
shift not held), a processed drag step moves every selected item by exactly
the raw delta (same width and height), leaves every unselected item where it
was, and adds the raw delta to the running total. -/
theorem handleMouseDrag_moves_selection (w : World) (s : Dragger) (e : MouseEvent)
    (g : CompId)
    (hproc : s.didStartDragging = true ∨ 10 ≤ e.distanceFromDragStart)
    (hclamp : s.constrainToParent = false)
    (hlock : s.shiftConstrainsDirection = false ∨ e.mods.shiftDown = false)
    (hg : s.componentBeingDragged = some g)
    (huniq : s.selectedComponents.reduceOption.Nodup)
    (hsize : ∀ c, 0 ≤ (w.bounds c).w ∧ 0 ≤ (w.bounds c).h) :
    ∃ w1 s1, handleMouseDrag w s e = .ok (w1, s1)
      ∧ (∀ c, isSelected s c = true →
          w1.bounds c = ⟨(w.bounds c).x + (rawDelta w s e g).x,
                         (w.bounds c).y + (rawDelta w s e g).y,
                         (w.bounds c).w, (w.bounds c).h⟩)
      ∧ (∀ c, isSelected s c = false → w1.bounds c = w.bounds c)
      ∧ s1.totalDragDelta = s.totalDragDelta + rawDelta w s e g
      ∧ s1.selectedComponents = s.selectedComponents := by
  have hoff : (s.shiftConstrainsDirection && e.mods.shiftDown) = false := by
    rcases hlock with h | h <;> simp [h]
  have hc : constrainDelta w s g (rawDelta w s e g) = .ok (rawDelta w s e g) := by
    simp [constrainDelta, hclamp]
  have hap : applyDirectionConstraints s e (rawDelta w s e g)
      = (Constraint.noConstraint, rawDelta w s e g) := by
    simp [applyDirectionConstraints, hoff]
  have hstep := handleMouseDrag_processed w s e g _ hproc hg hc
  rw [hap] at hstep
  refine ⟨_, _, hstep, ?_, ?_, rfl, rfl⟩
  · intro c hc
    rw [isSelected_iff] at hc
    exact moveLoop_bounds_of_mem _ _ w c huniq hc (hsize c).1 (hsize c).2
  · intro c hc
    rw [isSelected_false_iff] at hc
    exact moveLoop_bounds_of_not_mem _ _ w c hc

theorem demoWorld_sizes (c : CompId) :
    0 ≤ (demoWorld.bounds c).w ∧ 0 ≤ (demoWorld.bounds c).h := by
  unfold demoWorld
  dsimp only
  split_ifs <;> decide

theorem handleMouseDrag_moves_selection_witness :
    ∃ w1 s1, handleMouseDrag demoWorld
        (draggingWith [some 1, some 2] 1 false false Constraint.noConstraint ⟨12, 0⟩)
        (pointerAt 1 false false ⟨8, 9⟩ 18) = .ok (w1, s1)
      ∧ w1.bounds 1 = ⟨5, 5, 30, 30⟩
      ∧ w1.bounds 2 = ⟨105, 105, 30, 30⟩
      ∧ w1.bounds 0 = ⟨0, 0, 600, 400⟩
      ∧ s1.totalDragDelta = ⟨17, 5⟩ := by
  obtain ⟨w1, s1, hstep, hsel, hrest, htotal, -⟩ :=
    handleMouseDrag_moves_selection demoWorld
      (draggingWith [some 1, some 2] 1 false false Constraint.noConstraint ⟨12, 0⟩)
      (pointerAt 1 false false ⟨8, 9⟩ 18) 1 (Or.inl rfl) rfl (Or.inl rfl) rfl
      (by decide)
      demoWorld_sizes
  refine ⟨w1, s1, hstep, ?_, ?_, ?_, ?_⟩
  · rw [hsel 1 (by decide)]; decide
  · rw [hsel 2 (by decide)]; decide
  · rw [hrest 0 (by decide)]; decide
  · rw [htotal]; decide

/-- C9: the code at a selection holding an invalidated reference.  After
component 1 is deleted while selected, the move loop skips the reference,
but the union-box computation and `deselectAll` dereference it, and so a
pointer-down (with or without a modifier) and a clamped drag step fault. -/
theorem deleted_reference_is_dereferenced :
    (deleteComponent (idleWith [some 1, some 2]) 1).selectedComponents = [none, some 2]
      ∧ (moveLoop ⟨5, 5⟩ [none, some 2] demoWorld).bounds 2 = ⟨105, 105, 30, 30⟩
      ∧ getAreaOfSelectedComponents demoWorld (deleteComponent (idleWith [some 1, some 2]) 1)
          = .error Fault.nullDereference
      ∧ deselectAll demoWorld (deleteComponent (idleWith [some 1, some 2]) 1)
          = .error Fault.nullDereference
      ∧ handleMouseDown demoWorld (deleteComponent (idleWith [some 1, some 2]) 1) 3
          (pointerAt 3 false false ⟨3, 4⟩ 0) = .error Fault.nullDereference
      ∧ handleMouseDown demoWorld (deleteComponent (idleWith [some 1, some 2]) 1) 2
          (pointerAt 2 true false ⟨3, 4⟩ 0) = .error Fault.nullDereference
      ∧ handleMouseDrag demoWorld
          (draggingWith [none, some 2] 2 true false Constraint.noConstraint ⟨12, 0⟩)
          (pointerAt 2 false false ⟨8, 9⟩ 18) = .error Fault.nullDereference :=
  ⟨by decide, by decide, rfl, rfl, rfl, rfl, rfl⟩

/-! ## Clamping to the parent -/

theorem getUnion_translated (a b : Rectangle) (d : Point) :
    (a.translated d).getUnion (b.translated d) = (a.getUnion b).translated d := by
  unfold Rectangle.getUnion Rectangle.isEmpty Rectangle.translated
  dsimp only
  split_ifs <;> first
    | rfl
    | (simp only [Rectangle.mk.injEq, true_and, and_true]
       refine ⟨?_, ?_, ?_, ?_⟩ <;> omega)

theorem unionLoop_translated (w w1 : World) (d : Point) (sel : List (Option CompId))
    (a r : Rectangle)
    (hb : ∀ c, some c ∈ sel → w1.bounds c = (w.bounds c).translated d)
    (h : unionLoop w sel a = .ok r) :
    unionLoop w1 sel (a.translated d) = .ok (r.translated d) := by
  induction sel generalizing a with
  | nil =>
    simp only [unionLoop] at h ⊢
    rw [Except.ok.inj h]
  | cons x rest ih =>
    cases x with
    | none => simp [unionLoop, derefBounds] at h
    | some c =>
      simp only [unionLoop, derefBounds] at h ⊢
      rw [hb c (List.mem_cons_self _ _), getUnion_translated]
      exact ih _ (fun k hk => hb k (List.mem_cons_of_mem _ hk)) h

theorem getArea_translated (w w1 : World) (s s1 : Dragger) (d : Point) (r : Rectangle)
    (hsel : s1.selectedComponents = s.selectedComponents)
    (hne : s.selectedComponents ≠ [])
    (hb : ∀ c, some c ∈ s.selectedComponents → w1.bounds c = (w.bounds c).translated d)
    (h : getAreaOfSelectedComponents w s = .ok r) :
    getAreaOfSelectedComponents w1 s1 = .ok (r.translated d) := by
  unfold getAreaOfSelectedComponents at h ⊢
  rw [hsel]
  cases hs : s.selectedComponents with
  | nil => exact absurd hs hne
  | cons x rest =>
    rw [hs] at h hb
    cases x with
    | none => simp [derefBounds] at h
    | some c =>
      simp only [derefBounds] at h ⊢
      rw [hb c (List.mem_cons_self _ _)]
      exact unionLoop_translated w w1 d _ _ r hb h

theorem constrainDelta_clamped (w : World) (s : Dragger) (g p : CompId) (area : Rectangle)
    (d : Point) (hclamp : s.constrainToParent = true)
    (harea : getAreaOfSelectedComponents w s = .ok area) (hp : w.parent g = some p) :
    ∃ d1, constrainDelta w s g d = .ok d1
      ∧ d1.x = (if (s.amountPermittedOffscreen.subtractedFrom (area.translated d)).getX < 0
                then d.x - (s.amountPermittedOffscreen.subtractedFrom (area.translated d)).getX
                else d.x)
              - (if (s.amountPermittedOffscreen.subtractedFrom (area.translated d)).getRight
                      > (w.bounds p).getRight
                 then (s.amountPermittedOffscreen.subtractedFrom (area.translated d)).getRight
                      - (w.bounds p).getRight
                 else 0)
      ∧ d1.y = (if (s.amountPermittedOffscreen.subtractedFrom (area.translated d)).getY < 0
                then d.y - (s.amountPermittedOffscreen.subtractedFrom (area.translated d)).getY
                else d.y)
              - (if (s.amountPermittedOffscreen.subtractedFrom (area.translated d)).getBottom
                      > (w.bounds p).getBottom
                 then (s.amountPermittedOffscreen.subtractedFrom (area.translated d)).getBottom
                      - (w.bounds p).getBottom
                 else 0) := by
  refine ⟨_, by simp only [constrainDelta, hclamp, if_true, harea, hp]; rfl, ?_, ?_⟩
  · dsimp only; split_ifs <;> omega
  · dsimp only; split_ifs <;> omega

/-- Where the clamp does what it is for: with clamping on and margin M, a
processed drag step on which no axis lock is applied, for a parent whose
bounds start at (0,0) and a selection whose union box shrunk by M is no
wider and no taller than the parent, returns with the union box of the
selected items shrunk by M inside the parent's bounds on all four sides. -/
theorem clamped_drag_stays_in_parent (w : World) (s : Dragger) (e : MouseEvent)
    (g p : CompId) (area : Rectangle)
    (hproc : s.didStartDragging = true ∨ 10 ≤ e.distanceFromDragStart)
    (hclamp : s.constrainToParent = true)
    (hlock : s.shiftConstrainsDirection = false ∨ e.mods.shiftDown = false)
    (hg : s.componentBeingDragged = some g)
    (hp : w.parent g = some p)
    (hpsel : isSelected s p = false)
    (huniq : s.selectedComponents.reduceOption.Nodup)
    (hne : s.selectedComponents ≠ [])
    (hsize : ∀ c, 0 ≤ (w.bounds c).w ∧ 0 ≤ (w.bounds c).h)
    (horigin : (w.bounds p).x = 0 ∧ (w.bounds p).y = 0)
    (harea : getAreaOfSelectedComponents w s = .ok area)
    (hfit : (s.amountPermittedOffscreen.subtractedFrom area).w ≤ (w.bounds p).w
      ∧ (s.amountPermittedOffscreen.subtractedFrom area).h ≤ (w.bounds p).h) :
    ∃ w1 s1 area1, handleMouseDrag w s e = .ok (w1, s1)
      ∧ getAreaOfSelectedComponents w1 s1 = .ok area1
      ∧ (w1.bounds p).getX ≤ (s1.amountPermittedOffscreen.subtractedFrom area1).getX
      ∧ (w1.bounds p).getY ≤ (s1.amountPermittedOffscreen.subtractedFrom area1).getY
      ∧ (s1.amountPermittedOffscreen.subtractedFrom area1).getRight ≤ (w1.bounds p).getRight
      ∧ (s1.amountPermittedOffscreen.subtractedFrom area1).getBottom
          ≤ (w1.bounds p).getBottom := by
  obtain ⟨d1, hc, hx, hy⟩ :=
    constrainDelta_clamped w s g p area (rawDelta w s e g) hclamp harea hp
  have hoff : (s.shiftConstrainsDirection && e.mods.shiftDown) = false := by
    rcases hlock with h | h <;> simp [h]
  have hap : applyDirectionConstraints s e d1 = (Constraint.noConstraint, d1) := by
    simp [applyDirectionConstraints, hoff]
  have hstep := handleMouseDrag_processed w s e g d1 hproc hg hc
  rw [hap] at hstep
  have hmoved : ∀ c, some c ∈ s.selectedComponents →
      (moveLoop d1 s.selectedComponents w).bounds c = (w.bounds c).translated d1 :=
    fun c hc1 => moveLoop_bounds_of_mem _ _ w c huniq hc1 (hsize c).1 (hsize c).2
  have hparent : (moveLoop d1 s.selectedComponents w).bounds p = w.bounds p :=
    moveLoop_bounds_of_not_mem _ _ w p ((isSelected_false_iff s p).mp hpsel)
  have harea1 := getArea_translated w (moveLoop d1 s.selectedComponents w) s
    { s with didStartDragging := true, constrainedDirection := Constraint.noConstraint,
             totalDragDelta := s.totalDragDelta + d1 } d1 area rfl hne hmoved harea
  refine ⟨_, _, _, hstep, harea1, ?_⟩
  rw [hparent]
  obtain ⟨hox, hoy⟩ := horigin
  obtain ⟨hfw, hfh⟩ := hfit
  simp only [BorderSize.subtractedFrom, Rectangle.translated, Rectangle.getX, Rectangle.getY,
    Rectangle.getRight, Rectangle.getBottom] at hx hy hfw hfh ⊢
  rw [hx, hy]
  refine ⟨?_, ?_, ?_, ?_⟩ <;> split_ifs <;> omega

theorem clamped_drag_stays_in_parent_witness :
    ∃ w1 s1 area1, handleMouseDrag demoWorld
        (draggingWith [some 1, some 2] 1 true false Constraint.noConstraint ⟨12, 0⟩)
        (pointerAt 1 false false ⟨-17, 9⟩ 9) = .ok (w1, s1)
      ∧ getAreaOfSelectedComponents w1 s1 = .ok area1
      ∧ (w1.bounds 0).getX ≤ (s1.amountPermittedOffscreen.subtractedFrom area1).getX
      ∧ (w1.bounds 0).getY ≤ (s1.amountPermittedOffscreen.subtractedFrom area1).getY
      ∧ (s1.amountPermittedOffscreen.subtractedFrom area1).getRight ≤ (w1.bounds 0).getRight
      ∧ (s1.amountPermittedOffscreen.subtractedFrom area1).getBottom
          ≤ (w1.bounds 0).getBottom :=
  clamped_drag_stays_in_parent demoWorld
    (draggingWith [some 1, some 2] 1 true false Constraint.noConstraint ⟨12, 0⟩)
    (pointerAt 1 false false ⟨-17, 9⟩ 9) 1 0 ⟨0, 0, 130, 130⟩
    (Or.inl rfl) rfl (Or.inl rfl) rfl rfl (by decide) (by decide) (by decide)
    demoWorld_sizes ⟨rfl, rfl⟩ rfl (by decide)

/-- A box that cannot fit: 200 wide in a parent 100 wide, margin 0, dragged
5 to the left with clamping on.  Both the left and the right correction are
applied, and after the step the union box starts 95 units before the
parent's left edge (and still ends 5 beyond its right edge). -/
theorem clamped_drag_leaves_parent :
    ∃ w1 s1 area1, handleMouseDrag wideWorld
        (draggingWith [some 1] 1 true false Constraint.noConstraint ⟨0, 0⟩)
        (pointerAt 1 false false ⟨-2, 4⟩ 12) = .ok (w1, s1)
      ∧ getAreaOfSelectedComponents w1 s1 = .ok area1
      ∧ s1.amountPermittedOffscreen = ⟨0, 0, 0, 0⟩
      ∧ w1.bounds 0 = ⟨0, 0, 100, 100⟩
      ∧ area1 = ⟨-95, 0, 200, 30⟩
      ∧ (s1.amountPermittedOffscreen.subtractedFrom area1).getX < (w1.bounds 0).getX
      ∧ (s1.amountPermittedOffscreen.subtractedFrom area1).getRight
          > (w1.bounds 0).getRight :=
  ⟨_, _, _, rfl, rfl, by decide, by decide, by decide, by decide, by decide⟩

/-! ## The axis lock -/

theorem applyDirectionConstraints_x (s : Dragger) (e : MouseEvent) (d : Point)
    (hon : s.shiftConstrainsDirection = true) (hshift : e.mods.shiftDown = true)
    (h : 10 < dragXY s d ∨ (s.constrainedDirection = Constraint.xAxisOnly ∧ -10 ≤ dragXY s d)) :
    applyDirectionConstraints s e d = (Constraint.xAxisOnly, ⟨d.x, -s.totalDragDelta.y⟩) := by
  unfold applyDirectionConstraints
  simp only [hon, hshift, Bool.and_self, if_true, minimumMovementToStartDrag]
  rcases h with h | ⟨hx, h⟩
  · have h1 : ¬ dragXY s d < -10 := by omega
    have h2 : dragXY s d > 0 := by omega
    simp [h, h1, h2]
  · by_cases hbig : dragXY s d > 10
    · have h1 : ¬ dragXY s d < -10 := by omega
      have h2 : dragXY s d > 0 := by omega
      simp [hbig, h1, h2]
    · have h1 : ¬ dragXY s d < -10 := by omega
      simp [hbig, h1, hx]

theorem applyDirectionConstraints_y (s : Dragger) (e : MouseEvent) (d : Point)
    (hon : s.shiftConstrainsDirection = true) (hshift : e.mods.shiftDown = true)
    (h : dragXY s d < -10 ∨ (s.constrainedDirection = Constraint.yAxisOnly ∧ dragXY s d ≤ 10)) :
    applyDirectionConstraints s e d = (Constraint.yAxisOnly, ⟨-s.totalDragDelta.x, d.y⟩) := by
  unfold applyDirectionConstraints
  simp only [hon, hshift, Bool.and_self, if_true, minimumMovementToStartDrag]
  rcases h with h | ⟨hy, h⟩
  · have h1 : ¬ dragXY s d > 10 := by omega
    have h2 : ¬ dragXY s d > 0 := by omega
    have h3 : dragXY s d ≤ 0 := by omega
    simp [h, h1, h2, h3]
  · have h1 : ¬ dragXY s d > 10 := by omega
    by_cases hbig : dragXY s d < -10
    · have h2 : ¬ dragXY s d > 0 := by omega
      have h3 : dragXY s d ≤ 0 := by omega
      simp [hbig, h1, h2, h3]
    · simp [hbig, h1, hy]

theorem constrainDelta_ready (w : World) (s : Dragger) (g : CompId) (d : Point)
    (hready : DragReady w s g) : ∃ d1, constrainDelta w s g d = .ok d1 := by
  cases hclamp : s.constrainToParent
  · exact ⟨d, by simp [constrainDelta, hclamp]⟩
  · obtain ⟨hlive, p, hp⟩ := hready.2.2 hclamp
    obtain ⟨area, harea⟩ := getArea_live w s hlive
    obtain ⟨d1, h1, -⟩ := constrainDelta_clamped w s g p area d hclamp harea hp
    exact ⟨d1, h1⟩

theorem handleMouseDrag_ready (w : World) (s : Dragger) (e : MouseEvent) (g : CompId)
    (hready : DragReady w s g) :
    ∃ d1 w2 s2, constrainDelta w s g (rawDelta w s e g) = .ok d1
      ∧ handleMouseDrag w s e = .ok (w2, s2)
      ∧ DragReady w2 s2 g
      ∧ s2.shiftConstrainsDirection = s.shiftConstrainsDirection
      ∧ s2.selectedComponents = s.selectedComponents
      ∧ s2.constrainedDirection = (applyDirectionConstraints s e d1).1
      ∧ s2.totalDragDelta = s.totalDragDelta + (applyDirectionConstraints s e d1).2
      ∧ w2 = moveLoop (applyDirectionConstraints s e d1).2 s.selectedComponents w := by
  obtain ⟨d1, hc⟩ := constrainDelta_ready w s g (rawDelta w s e g) hready
  have hstep := handleMouseDrag_processed w s e g d1 (Or.inl hready.2.1) hready.1 hc
  refine ⟨d1, _, _, hc, hstep, ⟨hready.1, rfl, ?_⟩, rfl, rfl, rfl, rfl, rfl⟩
  intro hclamp
  obtain ⟨hlive, p, hp⟩ := hready.2.2 hclamp
  exact ⟨hlive, p, by rw [(moveLoop_parent _ _ w).1]; exact hp⟩

theorem handleMouseDrag_lockStep (w : World) (s : Dragger) (e : MouseEvent) (g : CompId)
    (hon : s.shiftConstrainsDirection = true) (hshift : e.mods.shiftDown = true)
    (hready : DragReady w s g) :
    ∃ d1 w2 s2, constrainDelta w s g (rawDelta w s e g) = .ok d1
      ∧ handleMouseDrag w s e = .ok (w2, s2)
      ∧ DragReady w2 s2 g
      ∧ s2.shiftConstrainsDirection = true
      ∧ LockStep s d1 s2 := by
  obtain ⟨d1, w2, s2, hc, hstep, hready2, hon2, -, hdir, htot, -⟩ :=
    handleMouseDrag_ready w s e g hready
  have hx : (10 < dragXY s d1 ∨ (s.constrainedDirection = Constraint.xAxisOnly
      ∧ -10 ≤ dragXY s d1)) →
      s2.constrainedDirection = Constraint.xAxisOnly ∧ s2.totalDragDelta.y = 0 := by
    intro h
    rw [hdir, htot, applyDirectionConstraints_x s e d1 hon hshift h]
    exact ⟨rfl, by simp⟩
  have hy : (dragXY s d1 < -10 ∨ (s.constrainedDirection = Constraint.yAxisOnly
      ∧ dragXY s d1 ≤ 10)) →
      s2.constrainedDirection = Constraint.yAxisOnly ∧ s2.totalDragDelta.x = 0 := by
    intro h
    rw [hdir, htot, applyDirectionConstraints_y s e d1 hon hshift h]
    exact ⟨rfl, by simp⟩
  exact ⟨d1, w2, s2, hc, hstep, hready2, hon2.trans hon,
    fun h1 h2 => hx (Or.inr ⟨h1, h2⟩), fun h1 h2 => hy (Or.inr ⟨h1, h2⟩),
    fun h => hx (Or.inl h), fun h => hy (Or.inl h)⟩

/-- C7 (as the code has it): in a gesture whose drag has started, with
axis-lock enabled and shift held on every drag event, the whole run of drag
events returns, and at every step of it: a lock to an axis is kept, with no
net movement on the other axis (its running total is 0), as long as the
step's `xy` is not beyond the 10-unit threshold in favour of the other axis;
a step whose `xy` is beyond the threshold moves the lock to the favoured
axis. -/
theorem axis_lock_hysteresis (w : World) (s : Dragger) (g : CompId)
    (drags : List MouseEvent)
    (hon : s.shiftConstrainsDirection = true)
    (hshift : ∀ e ∈ drags, e.mods.shiftDown = true)
    (hready : DragReady w s g) :
    (∃ wn sn, dragAll w s drags = .ok (wn, sn))
      ∧ ∀ pre e post, drags = pre ++ e :: post →
          ∃ w1 s1 d1 w2 s2, dragAll w s pre = .ok (w1, s1)
            ∧ constrainDelta w1 s1 g (rawDelta w1 s1 e g) = .ok d1
            ∧ handleMouseDrag w1 s1 e = .ok (w2, s2)
            ∧ LockStep s1 d1 s2 := by
  induction drags generalizing w s with
  | nil =>
    refine ⟨⟨w, s, rfl⟩, ?_⟩
    intro pre e post h
    simp at h
  | cons e0 rest ih =>
    obtain ⟨d0, w0, s0, hc0, hstep0, hready0, hon0, hlock0⟩ :=
      handleMouseDrag_lockStep w s e0 g hon (hshift e0 (List.mem_cons_self _ _)) hready
    obtain ⟨⟨wn, sn, hrun⟩, hall⟩ := ih w0 s0 hon0
      (fun e he => hshift e (List.mem_cons_of_mem _ he)) hready0
    refine ⟨⟨wn, sn, by simp only [dragAll, hstep0]; exact hrun⟩, ?_⟩
    intro pre e post h
    cases pre with
    | nil =>
      simp only [List.nil_append, List.cons.injEq] at h
      obtain ⟨he, -⟩ := h
      subst he
      exact ⟨w, s, d0, w0, s0, rfl, hc0, hstep0, hlock0⟩
    | cons p0 pre1 =>
      simp only [List.cons_append, List.cons.injEq] at h
      obtain ⟨he, hrest⟩ := h
      subst he
      obtain ⟨w1, s1, d1, w2, s2, hpre, hc, hstep, hlock⟩ := hall pre1 e post hrest
      exact ⟨w1, s1, d1, w2, s2, by simp only [dragAll, hstep0]; exact hpre, hc, hstep, hlock⟩

theorem axis_lock_hysteresis_witness :
    (∃ wn sn, dragAll demoWorld
        (draggingWith [some 1] 1 true true Constraint.xAxisOnly ⟨20, 0⟩)
        [pointerAt 1 true false ⟨5, 9⟩ 23, pointerAt 1 true false ⟨3, 54⟩ 54] = .ok (wn, sn))
      ∧ ∀ pre e post,
          [pointerAt 1 true false ⟨5, 9⟩ 23, pointerAt 1 true false ⟨3, 54⟩ 54]
            = pre ++ e :: post →
          ∃ w1 s1 d1 w2 s2, dragAll demoWorld
              (draggingWith [some 1] 1 true true Constraint.xAxisOnly ⟨20, 0⟩) pre = .ok (w1, s1)
            ∧ constrainDelta w1 s1 1 (rawDelta w1 s1 e 1) = .ok d1
            ∧ handleMouseDrag w1 s1 e = .ok (w2, s2)
            ∧ LockStep s1 d1 s2 :=
  axis_lock_hysteresis demoWorld
    (draggingWith [some 1] 1 true true Constraint.xAxisOnly ⟨20, 0⟩) 1
    [pointerAt 1 true false ⟨5, 9⟩ 23, pointerAt 1 true false ⟨3, 54⟩ 54]
    rfl (by decide) ⟨rfl, rfl, fun _ => ⟨by decide, 0, rfl⟩⟩

/-- C7 fails as stated: with axis-lock enabled and shift held throughout,
box 1 is pressed and dragged 20 to the right, which locks to the horizontal
axis (`xy` = 20); the next drag event, 50 further down, has `xy` = -30 and
the lock goes to the vertical axis: the box returns to its starting x and
moves 50 down. -/
theorem axis_lock_switches_on_big_movement :
    ∃ w1 s1 w2 s2 w3 s3,
      handleMouseDown demoWorld (setShiftConstrainsDirection (idleWith []) true) 1
          (pointerAt 1 true false ⟨3, 4⟩ 0) = .ok (w1, s1)
      ∧ handleMouseDrag w1 s1 (pointerAt 1 true false ⟨23, 4⟩ 20) = .ok (w2, s2)
      ∧ dragXY s1 ⟨20, 0⟩ = 20
      ∧ s2.constrainedDirection = Constraint.xAxisOnly
      ∧ w2.bounds 1 = ⟨20, 0, 30, 30⟩
      ∧ handleMouseDrag w2 s2 (pointerAt 1 true false ⟨3, 54⟩ 54) = .ok (w3, s3)
      ∧ s3.constrainedDirection = Constraint.yAxisOnly
      ∧ w3.bounds 1 = ⟨0, 50, 30, 30⟩ :=
  ⟨_, _, _, _, _, _, rfl, rfl, by decide, by decide, by decide, rfl, by decide, by decide⟩

/-! ## Selecting and deselecting -/

theorem setSelected_same (s : Dragger) (c : CompId) (flag : Bool)
    (h : isSelected s c = flag) : setSelected s c flag = s := by
  subst h
  cases hsel : isSelected s c <;> simp [setSelected, hsel]

theorem isSelected_setSelected_self (s : Dragger) (c : CompId) (flag : Bool) :
    isSelected (setSelected s c flag) c = flag := by
  have hset := setSelected_selectedComponents s c flag
  cases hsel : isSelected s c <;> cases flag <;>
    simp only [hsel, if_true, Bool.false_eq_true, if_false] at hset <;>
    simp only [isSelected, hset]
  · simpa [isSelected] using hsel
  · simp
  · simp [List.mem_filter]
  · simpa [isSelected] using hsel

theorem isSelected_setSelected_other (s : Dragger) (c k : CompId) (flag : Bool)
    (hk : k ≠ c) : isSelected (setSelected s c flag) k = isSelected s k := by
  have hset := setSelected_selectedComponents s c flag
  have hne : ¬ (some k = some c) := by simpa using hk
  cases hsel : isSelected s c <;> cases flag <;>
    simp only [hsel, if_true, Bool.false_eq_true, if_false] at hset <;>
    simp [isSelected, hset, List.mem_filter, hne, hk]

/-- C11: `setSelected (item, flag)` leaves `isSelected (item)` equal to
`flag`, leaves `isSelected` of every other item as it was, and when
`isSelected (item)` already equalled `flag` it leaves the dragger, and so the
selection list with its order, identical. -/
theorem setSelected_postcondition (s : Dragger) (c : CompId) (flag : Bool) :
    isSelected (setSelected s c flag) c = flag
      ∧ (∀ k, k ≠ c → isSelected (setSelected s c flag) k = isSelected s k)
      ∧ (isSelected s c = flag →
          setSelected s c flag = s
            ∧ (setSelected s c flag).selectedComponents = s.selectedComponents) :=
  ⟨isSelected_setSelected_self s c flag,
   fun k hk => isSelected_setSelected_other s c k flag hk,
   fun h => ⟨setSelected_same s c flag h, by rw [setSelected_same s c flag h]⟩⟩

theorem setSelected_postcondition_witness :
    isSelected (setSelected (idleWith [some 1, some 2]) 1 true) 1 = true
      ∧ (∀ k, k ≠ 1 → isSelected (setSelected (idleWith [some 1, some 2]) 1 true) k
          = isSelected (idleWith [some 1, some 2]) k)
      ∧ (setSelected (idleWith [some 1, some 2]) 1 true = idleWith [some 1, some 2]
          ∧ (setSelected (idleWith [some 1, some 2]) 1 true).selectedComponents
              = [some 1, some 2]) :=
  ⟨(setSelected_postcondition (idleWith [some 1, some 2]) 1 true).1,
   (setSelected_postcondition (idleWith [some 1, some 2]) 1 true).2.1,
   (setSelected_postcondition (idleWith [some 1, some 2]) 1 true).2.2 (by decide)⟩

/-- C12 (as the code has it): `setSelected (item, true)` followed by
`setSelected (item, false)` leaves the item unselected and every other item
as it was; when the item was not selected before, this is its prior value
and the selection list is restored exactly. -/
theorem select_then_deselect (s : Dragger) (c : CompId) :
    isSelected (setSelected (setSelected s c true) c false) c = false
      ∧ (∀ k, k ≠ c →
          isSelected (setSelected (setSelected s c true) c false) k = isSelected s k)
      ∧ (isSelected s c = false →
          isSelected (setSelected (setSelected s c true) c false) c = isSelected s c
            ∧ (setSelected (setSelected s c true) c false).selectedComponents
                = s.selectedComponents) := by
  refine ⟨isSelected_setSelected_self _ c false, ?_, ?_⟩
  · intro k hk
    rw [isSelected_setSelected_other _ c k false hk, isSelected_setSelected_other s c k true hk]
  · intro h
    refine ⟨by rw [isSelected_setSelected_self, h], ?_⟩
    have h1 : isSelected (setSelected s c true) c = true := isSelected_setSelected_self s c true
    have hnot : some c ∉ s.selectedComponents := (isSelected_false_iff s c).mp h
    rw [setSelected_selectedComponents, h1, setSelected_selectedComponents, h]
    simp only [if_true, Bool.false_eq_true, if_false]
    rw [List.filter_append, List.filter_eq_self.mpr]
    · simp
    · intro r hr
      have : r ≠ some c := fun hrc => hnot (hrc ▸ hr)
      simpa using this

theorem select_then_deselect_witness :
    isSelected (setSelected (setSelected (idleWith [some 2]) 1 true) 1 false) 1
        = isSelected (idleWith [some 2]) 1
      ∧ (setSelected (setSelected (idleWith [some 2]) 1 true) 1 false).selectedComponents
          = [some 2] :=
  (select_then_deselect (idleWith [some 2]) 1).2.2 (by decide)

/-- C12 fails as stated: item 1 is selected before the two calls and is not
selected after them, so `isSelected` has not returned to its prior value. -/
theorem deselect_after_select_loses_selection :
    isSelected (idleWith [some 1]) 1 = true
      ∧ isSelected (setSelected (setSelected (idleWith [some 1]) 1 true) 1 false) 1 = false
      ∧ isSelected (setSelected (setSelected (idleWith [some 1]) 1 true) 1 false) 1
          ≠ isSelected (idleWith [some 1]) 1 := by
  decide

/-- C20: `toggleSelection (item)` flips `isSelected (item)` and leaves every
other item as it was, and calling it twice returns `isSelected` of every
item to its original value. -/
theorem toggleSelection_involution (s : Dragger) (c : CompId) :
    (∀ k, isSelected (toggleSelection (toggleSelection s c) c) k = isSelected s k)
      ∧ isSelected (toggleSelection s c) c = !isSelected s c
      ∧ ∀ k, k ≠ c → isSelected (toggleSelection s c) k = isSelected s k := by
  have hflip : ∀ t : Dragger, isSelected (toggleSelection t c) c = !isSelected t c :=
    fun t => isSelected_setSelected_self t c _
  have hother : ∀ (t : Dragger) (k : CompId), k ≠ c →
      isSelected (toggleSelection t c) k = isSelected t k :=
    fun t k hk => isSelected_setSelected_other t c k _ hk
  refine ⟨?_, hflip s, hother s⟩
  intro k
  by_cases hk : k = c
  · subst hk
    rw [hflip, hflip, Bool.not_not]
  · rw [hother _ k hk, hother s k hk]

theorem repaintLoop_log (sel : List (Option CompId)) (w : World) (h : none ∉ sel) :
    ∃ w1, repaintLoop sel w = .ok w1 ∧ w1.repaints = w.repaints ++ sel.reduceOption
      ∧ w1.bounds = w.bounds ∧ w1.parent = w.parent := by
  induction sel generalizing w with
  | nil => exact ⟨w, rfl, by simp, rfl, rfl⟩
  | cons r rest ih =>
    cases r with
    | none => simp at h
    | some c =>
      have hrest : none ∉ rest := fun hm => h (List.mem_cons_of_mem _ hm)
      obtain ⟨w1, h1, h2, h3, h4⟩ := ih (w.repaint c) hrest
      refine ⟨w1, by simpa [repaintLoop] using h1, ?_, h3, h4⟩
      rw [h2, List.reduceOption_cons_of_some]
      simp [World.repaint]

/-- C13: `deselectAll` on a selection of live references returns with the
selection list empty (no item is selected), logs exactly one redraw request
for each element of the old selection, in order, and none for any other
item, and changes no bounds; on an empty selection the tree and the dragger
are returned unchanged, with no redraw request. -/
theorem deselectAll_clears (w : World) (s : Dragger)
    (hlive : none ∉ s.selectedComponents) :
    ∃ w1 s1, deselectAll w s = .ok (w1, s1)
      ∧ s1.selectedComponents = []
      ∧ (∀ k, isSelected s1 k = false)
      ∧ w1.repaints = w.repaints ++ s.selectedComponents.reduceOption
      ∧ w1.bounds = w.bounds
      ∧ (s.selectedComponents = [] → w1 = w ∧ s1 = s ∧ w1.repaints = w.repaints) := by
  obtain ⟨w1, h1, hlog, hb, -⟩ := repaintLoop_log s.selectedComponents w hlive
  refine ⟨w1, { s with selectedComponents := [] }, by simp [deselectAll, h1], rfl,
    fun k => by simp [isSelected], hlog, hb, ?_⟩
  intro hempty
  rw [hempty] at h1 hlog
  have hw : w1 = w := (Except.ok.inj h1).symm
  refine ⟨hw, ?_, by rw [hw]⟩
  cases s
  simp only at hempty
  subst hempty
  rfl

theorem deselectAll_clears_witness :
    ∃ w1 s1, deselectAll demoWorld (idleWith [some 1, some 2]) = .ok (w1, s1)
      ∧ s1.selectedComponents = []
      ∧ (∀ k, isSelected s1 k = false)
      ∧ w1.repaints = demoWorld.repaints ++ [1, 2]
      ∧ w1.bounds = demoWorld.bounds
      ∧ ((idleWith [some 1, some 2]).selectedComponents = [] →
          w1 = demoWorld ∧ s1 = idleWith [some 1, some 2]
            ∧ w1.repaints = demoWorld.repaints) :=
  deselectAll_clears demoWorld (idleWith [some 1, some 2]) (by decide)

/-! ## The axis lock, step by step -/

theorem applyDirectionConstraints_active (s : Dragger) (e : MouseEvent) (d : Point)
    (hon : s.shiftConstrainsDirection = true) (hshift : e.mods.shiftDown = true) :
    applyDirectionConstraints s e d =
      if 10 < dragXY s d then (Constraint.xAxisOnly, ⟨d.x, -s.totalDragDelta.y⟩)
      else if dragXY s d < -10 then (Constraint.yAxisOnly, ⟨-s.totalDragDelta.x, d.y⟩)
      else match s.constrainedDirection with
        | Constraint.xAxisOnly => (Constraint.xAxisOnly, ⟨d.x, -s.totalDragDelta.y⟩)
        | Constraint.yAxisOnly => (Constraint.yAxisOnly, ⟨-s.totalDragDelta.x, d.y⟩)
        | Constraint.noConstraint =>
          if 0 < dragXY s d then (Constraint.xAxisOnly, ⟨d.x, -s.totalDragDelta.y⟩)
          else (Constraint.yAxisOnly, ⟨-s.totalDragDelta.x, d.y⟩) := by
  by_cases h1 : 10 < dragXY s d
  · rw [if_pos h1]
    exact applyDirectionConstraints_x s e d hon hshift (Or.inl h1)
  · rw [if_neg h1]
    by_cases h2 : dragXY s d < -10
    · rw [if_pos h2]
      exact applyDirectionConstraints_y s e d hon hshift (Or.inl h2)
    · rw [if_neg h2]
      cases hdir : s.constrainedDirection with
      | xAxisOnly =>
        exact applyDirectionConstraints_x s e d hon hshift (Or.inr ⟨hdir, by omega⟩)
      | yAxisOnly =>
        exact applyDirectionConstraints_y s e d hon hshift (Or.inr ⟨hdir, by omega⟩)
      | noConstraint =>
        have h1a : ¬ dragXY s d > 10 := h1
        unfold applyDirectionConstraints
        simp only [hon, hshift, Bool.and_self, if_true, minimumMovementToStartDrag]
        by_cases h3 : 0 < dragXY s d
        · have h3a : dragXY s d > 0 := h3
          simp [h1a, h2, h3a, hdir]
        · have h3a : ¬ dragXY s d > 0 := h3
          have h4 : dragXY s d ≤ 0 := by omega
          simp [h1a, h2, h3a, h4, hdir]

/-- C15 (as the code has it): for one drag step with axis-lock enabled and
shift held, with `xy` = |total.x + delta.x| - |total.y + delta.y|, the lock
after the step is horizontal if `xy` > 10, vertical if `xy` < -10, and
otherwise the lock before the step when that was horizontal or vertical;
from no lock it is horizontal if `xy` > 0 and vertical if `xy` ≤ 0. -/
theorem lock_transition_rule (s : Dragger) (e : MouseEvent) (d : Point)
    (hon : s.shiftConstrainsDirection = true) (hshift : e.mods.shiftDown = true) :
    (applyDirectionConstraints s e d).1 =
      if 10 < dragXY s d then Constraint.xAxisOnly
      else if dragXY s d < -10 then Constraint.yAxisOnly
      else match s.constrainedDirection with
        | Constraint.xAxisOnly => Constraint.xAxisOnly
        | Constraint.yAxisOnly => Constraint.yAxisOnly
        | Constraint.noConstraint =>
          if 0 < dragXY s d then Constraint.xAxisOnly else Constraint.yAxisOnly := by
  rw [applyDirectionConstraints_active s e d hon hshift]
  split_ifs <;> first
    | rfl
    | (cases s.constrainedDirection <;> simp)

theorem lock_transition_rule_witness :
    (applyDirectionConstraints
        (draggingWith [some 1] 1 false true Constraint.yAxisOnly ⟨0, 30⟩)
        (pointerAt 1 true false ⟨28, 4⟩ 39) ⟨25, 0⟩).1 =
      if 10 < dragXY (draggingWith [some 1] 1 false true Constraint.yAxisOnly ⟨0, 30⟩) ⟨25, 0⟩
      then Constraint.xAxisOnly
      else if dragXY (draggingWith [some 1] 1 false true Constraint.yAxisOnly ⟨0, 30⟩) ⟨25, 0⟩
          < -10
      then Constraint.yAxisOnly
      else match (draggingWith [some 1] 1 false true Constraint.yAxisOnly ⟨0, 30⟩).constrainedDirection with
        | Constraint.xAxisOnly => Constraint.xAxisOnly
        | Constraint.yAxisOnly => Constraint.yAxisOnly
        | Constraint.noConstraint =>
          if 0 < dragXY (draggingWith [some 1] 1 false true Constraint.yAxisOnly ⟨0, 30⟩) ⟨25, 0⟩
          then Constraint.xAxisOnly else Constraint.yAxisOnly :=
  lock_transition_rule (draggingWith [some 1] 1 false true Constraint.yAxisOnly ⟨0, 30⟩)
    (pointerAt 1 true false ⟨28, 4⟩ 39) ⟨25, 0⟩ rfl rfl

/-- C15 fails as stated: with axis-lock enabled and shift held, box 1 is
pressed (no lock yet) and the first processed drag event moves it by (8,6),
so `xy` = 2 and |`xy`| ≤ 10; the lock after the step is horizontal, not the
lock before the step (none). -/
theorem lock_from_none_inside_band :
    ∃ w1 s1 w2 s2,
      handleMouseDown demoWorld (setShiftConstrainsDirection (idleWith []) true) 1
          (pointerAt 1 true false ⟨3, 4⟩ 0) = .ok (w1, s1)
      ∧ s1.constrainedDirection = Constraint.noConstraint
      ∧ rawDelta w1 s1 (pointerAt 1 true false ⟨11, 10⟩ 10) 1 = ⟨8, 6⟩
      ∧ dragXY s1 ⟨8, 6⟩ = 2
      ∧ handleMouseDrag w1 s1 (pointerAt 1 true false ⟨11, 10⟩ 10) = .ok (w2, s2)
      ∧ s2.constrainedDirection = Constraint.xAxisOnly
      ∧ s2.constrainedDirection ≠ s1.constrainedDirection :=
  ⟨_, _, _, _, rfl, rfl, by decide, by decide, rfl, rfl, by decide⟩

theorem lockBranch_ne_neither (s : Dragger) (d : Point) :
    lockBranch s d ≠ LockBranch.neither := by
  unfold lockBranch
  simp only [minimumMovementToStartDrag]
  by_cases h1 : dragXY s d > 10 <;> by_cases h2 : dragXY s d < -10 <;>
    by_cases h3 : dragXY s d > 0 <;>
    cases hdir : s.constrainedDirection <;>
    first
      | omega
      | (have h4 : dragXY s d ≤ 0 := by omega
         simp [h1, h2, h3, h4])
      | simp [h1, h2, h3]

theorem applyDirectionConstraints_branch (s : Dragger) (e : MouseEvent) (d : Point)
    (hon : s.shiftConstrainsDirection = true) (hshift : e.mods.shiftDown = true) :
    (lockBranch s d = LockBranch.xOnly →
        applyDirectionConstraints s e d = (Constraint.xAxisOnly, ⟨d.x, -s.totalDragDelta.y⟩))
      ∧ (lockBranch s d = LockBranch.yOnly →
        applyDirectionConstraints s e d = (Constraint.yAxisOnly, ⟨-s.totalDragDelta.x, d.y⟩))
      ∧ (lockBranch s d = LockBranch.neither →
        (applyDirectionConstraints s e d).2 = ⟨0, 0⟩) := by
  unfold applyDirectionConstraints lockBranch
  simp only [hon, hshift, Bool.and_self, if_true]
  split_ifs <;> simp

/-- C19: in `applyDirectionConstraints` with axis-lock enabled and shift
held, for every prior lock state, running total and delta, one of the two
locking branches is taken and the final `else` (delta set to (0,0)) is
never reached; so the lock after the step is horizontal or vertical, never
none. -/
theorem lock_else_branch_unreachable (s : Dragger) (e : MouseEvent) (d : Point)
    (hon : s.shiftConstrainsDirection = true) (hshift : e.mods.shiftDown = true) :
    lockBranch s d ≠ LockBranch.neither
      ∧ (lockBranch s d = LockBranch.xOnly ∨ lockBranch s d = LockBranch.yOnly)
      ∧ (lockBranch s d = LockBranch.xOnly →
          applyDirectionConstraints s e d
            = (Constraint.xAxisOnly, ⟨d.x, -s.totalDragDelta.y⟩))
      ∧ (lockBranch s d = LockBranch.yOnly →
          applyDirectionConstraints s e d
            = (Constraint.yAxisOnly, ⟨-s.totalDragDelta.x, d.y⟩))
      ∧ ((applyDirectionConstraints s e d).1 = Constraint.xAxisOnly
          ∨ (applyDirectionConstraints s e d).1 = Constraint.yAxisOnly)
      ∧ (applyDirectionConstraints s e d).1 ≠ Constraint.noConstraint := by
  have hne := lockBranch_ne_neither s d
  obtain ⟨hx, hy, -⟩ := applyDirectionConstraints_branch s e d hon hshift
  have hor : lockBranch s d = LockBranch.xOnly ∨ lockBranch s d = LockBranch.yOnly := by
    cases hb : lockBranch s d
    · exact Or.inl rfl
    · exact Or.inr rfl
    · exact absurd hb hne
  refine ⟨hne, hor, hx, hy, ?_, ?_⟩
  · rcases hor with h | h
    · exact Or.inl (by rw [hx h])
    · exact Or.inr (by rw [hy h])
  · rcases hor with h | h
    · rw [hx h]; simp
    · rw [hy h]; simp

theorem lock_else_branch_unreachable_witness :
    lockBranch (draggingWith [some 1] 1 false true Constraint.noConstraint ⟨0, 0⟩) ⟨0, 0⟩
        ≠ LockBranch.neither
      ∧ (applyDirectionConstraints
          (draggingWith [some 1] 1 false true Constraint.noConstraint ⟨0, 0⟩)
          (pointerAt 1 true false ⟨3, 4⟩ 0) ⟨0, 0⟩).1 ≠ Constraint.noConstraint :=
  ⟨(lock_else_branch_unreachable
      (draggingWith [some 1] 1 false true Constraint.noConstraint ⟨0, 0⟩)
      (pointerAt 1 true false ⟨3, 4⟩ 0) ⟨0, 0⟩ rfl rfl).1,
   (lock_else_branch_unreachable
      (draggingWith [some 1] 1 false true Constraint.noConstraint ⟨0, 0⟩)
      (pointerAt 1 true false ⟨3, 4⟩ 0) ⟨0, 0⟩ rfl rfl).2.2.2.2.2⟩

theorem constrainDelta_safe (w : World) (s : Dragger) (g : CompId) (d : Point)
    (hsafe : s.constrainToParent = true →
      none ∉ s.selectedComponents ∧ ∃ p, w.parent g = some p) :
    ∃ d1, constrainDelta w s g d = .ok d1 := by
  cases hclamp : s.constrainToParent
  · exact ⟨d, by simp [constrainDelta, hclamp]⟩
  · obtain ⟨hlive, p, hp⟩ := hsafe hclamp
    obtain ⟨area, harea⟩ := getArea_live w s hlive
    obtain ⟨d1, h1, -⟩ := constrainDelta_clamped w s g p area d hclamp harea hp
    exact ⟨d1, h1⟩

theorem applyDirectionConstraints_forms (s : Dragger) (e : MouseEvent) (d : Point)
    (hon : s.shiftConstrainsDirection = true) (hshift : e.mods.shiftDown = true) :
    applyDirectionConstraints s e d = (Constraint.xAxisOnly, ⟨d.x, -s.totalDragDelta.y⟩)
      ∨ applyDirectionConstraints s e d
          = (Constraint.yAxisOnly, ⟨-s.totalDragDelta.x, d.y⟩) := by
  obtain ⟨hx, hy, -⟩ := applyDirectionConstraints_branch s e d hon hshift
  cases hb : lockBranch s d
  · exact Or.inl (hx hb)
  · exact Or.inr (hy hb)
  · exact absurd hb (lockBranch_ne_neither s d)

/-- C16: a processed drag step with the axis lock applied (axis-lock enabled,
shift held) returns, and ends locked to an axis.  If it ends locked to
horizontal, the delta applied is the clamped delta with its y replaced by
the negation of the running total's y, so the running total's y is 0 after
the step and its x has grown by the clamped delta's x; if it ends locked to
vertical, symmetrically the running total's x is 0 and its y has grown by
the clamped delta's y. -/
theorem locked_axis_correction (w : World) (s : Dragger) (e : MouseEvent) (g : CompId)
    (hon : s.shiftConstrainsDirection = true) (hshift : e.mods.shiftDown = true)
    (hproc : s.didStartDragging = true ∨ 10 ≤ e.distanceFromDragStart)
    (hg : s.componentBeingDragged = some g)
    (hsafe : s.constrainToParent = true →
      none ∉ s.selectedComponents ∧ ∃ p, w.parent g = some p) :
    ∃ d1 applied w2 s2, constrainDelta w s g (rawDelta w s e g) = .ok d1
      ∧ handleMouseDrag w s e = .ok (w2, s2)
      ∧ w2 = moveLoop applied s.selectedComponents w
      ∧ s2.totalDragDelta = s.totalDragDelta + applied
      ∧ (s2.constrainedDirection = Constraint.xAxisOnly
          ∨ s2.constrainedDirection = Constraint.yAxisOnly)
      ∧ (s2.constrainedDirection = Constraint.xAxisOnly →
          applied = ⟨d1.x, -s.totalDragDelta.y⟩
            ∧ s2.totalDragDelta.y = 0
            ∧ s2.totalDragDelta.x = s.totalDragDelta.x + d1.x)
      ∧ (s2.constrainedDirection = Constraint.yAxisOnly →
          applied = ⟨-s.totalDragDelta.x, d1.y⟩
            ∧ s2.totalDragDelta.x = 0
            ∧ s2.totalDragDelta.y = s.totalDragDelta.y + d1.y) := by
  obtain ⟨d1, hc⟩ := constrainDelta_safe w s g (rawDelta w s e g) hsafe
  have hstep := handleMouseDrag_processed w s e g d1 hproc hg hc
  rcases applyDirectionConstraints_forms s e d1 hon hshift with hform | hform
  · rw [hform] at hstep
    refine ⟨d1, ⟨d1.x, -s.totalDragDelta.y⟩, _, _, hc, hstep, rfl, rfl, Or.inl rfl, ?_, ?_⟩
    · intro _
      exact ⟨rfl, by simp, by simp⟩
    · intro h
      simp at h
  · rw [hform] at hstep
    refine ⟨d1, ⟨-s.totalDragDelta.x, d1.y⟩, _, _, hc, hstep, rfl, rfl, Or.inr rfl, ?_, ?_⟩
    · intro h
      simp at h
    · intro _
      exact ⟨rfl, by simp, by simp⟩

theorem locked_axis_correction_witness :
    ∃ d1 applied w2 s2,
      constrainDelta demoWorld
          (draggingWith [some 1, some 2] 1 true true Constraint.xAxisOnly ⟨20, 7⟩) 1
          (rawDelta demoWorld
            (draggingWith [some 1, some 2] 1 true true Constraint.xAxisOnly ⟨20, 7⟩)
            (pointerAt 1 true false ⟨8, 9⟩ 26) 1) = .ok d1
      ∧ handleMouseDrag demoWorld
          (draggingWith [some 1, some 2] 1 true true Constraint.xAxisOnly ⟨20, 7⟩)
          (pointerAt 1 true false ⟨8, 9⟩ 26) = .ok (w2, s2)
      ∧ w2 = moveLoop applied [some 1, some 2] demoWorld
      ∧ s2.totalDragDelta = (⟨20, 7⟩ : Point) + applied
      ∧ (s2.constrainedDirection = Constraint.xAxisOnly
          ∨ s2.constrainedDirection = Constraint.yAxisOnly)
      ∧ (s2.constrainedDirection = Constraint.xAxisOnly →
          applied = ⟨d1.x, -7⟩ ∧ s2.totalDragDelta.y = 0 ∧ s2.totalDragDelta.x = 20 + d1.x)
      ∧ (s2.constrainedDirection = Constraint.yAxisOnly →
          applied = ⟨-20, d1.y⟩ ∧ s2.totalDragDelta.x = 0 ∧ s2.totalDragDelta.y = 7 + d1.y) :=
  locked_axis_correction demoWorld
    (draggingWith [some 1, some 2] 1 true true Constraint.xAxisOnly ⟨20, 7⟩)
    (pointerAt 1 true false ⟨8, 9⟩ 26) 1 rfl rfl (Or.inl rfl) rfl
    (fun _ => ⟨by decide, 0, rfl⟩)

/-! ## The clamp corrections -/

/-- C17: with clamping on, where `T` is the union box of the selected items
offset by the raw delta and shrunk by the margin, the clamped delta is the
raw delta minus `T.left` when `T.left < 0`, minus `T.top` when `T.top < 0`,
minus `T.right - parent.right` when `T.right > parent.right`, minus
`T.bottom - parent.bottom` when `T.bottom > parent.bottom`, every correction
taken from the same `T` and added; so a horizontal and a vertical overflow
are both corrected in the one step, and with no overflow the delta is
unchanged. -/
theorem clamp_corrections_additive (w : World) (s : Dragger) (g p : CompId)
    (area T : Rectangle) (d : Point)
    (hclamp : s.constrainToParent = true)
    (harea : getAreaOfSelectedComponents w s = .ok area)
    (hp : w.parent g = some p)
    (hT : T = s.amountPermittedOffscreen.subtractedFrom (area.translated d)) :
    ∃ d1, constrainDelta w s g d = .ok d1
      ∧ d1.x = d.x - (if T.getX < 0 then T.getX else 0)
                   - (if T.getRight > (w.bounds p).getRight
                      then T.getRight - (w.bounds p).getRight else 0)
      ∧ d1.y = d.y - (if T.getY < 0 then T.getY else 0)
                   - (if T.getBottom > (w.bounds p).getBottom
                      then T.getBottom - (w.bounds p).getBottom else 0)
      ∧ (T.getX < 0 → T.getRight ≤ (w.bounds p).getRight → d1.x = d.x - T.getX)
      ∧ (0 ≤ T.getX → T.getRight > (w.bounds p).getRight →
          d1.x = d.x - (T.getRight - (w.bounds p).getRight))
      ∧ (T.getY < 0 → T.getBottom ≤ (w.bounds p).getBottom → d1.y = d.y - T.getY)
      ∧ (0 ≤ T.getY → T.getBottom > (w.bounds p).getBottom →
          d1.y = d.y - (T.getBottom - (w.bounds p).getBottom))
      ∧ (0 ≤ T.getX → 0 ≤ T.getY → T.getRight ≤ (w.bounds p).getRight →
          T.getBottom ≤ (w.bounds p).getBottom → d1 = d) := by
  obtain ⟨d1, hc, hx, hy⟩ := constrainDelta_clamped w s g p area d hclamp harea hp
  rw [← hT] at hx hy
  have hx1 : d1.x = d.x - (if T.getX < 0 then T.getX else 0)
      - (if T.getRight > (w.bounds p).getRight
         then T.getRight - (w.bounds p).getRight else 0) := by
    rw [hx]; split_ifs <;> omega
  have hy1 : d1.y = d.y - (if T.getY < 0 then T.getY else 0)
      - (if T.getBottom > (w.bounds p).getBottom
         then T.getBottom - (w.bounds p).getBottom else 0) := by
    rw [hy]; split_ifs <;> omega
  refine ⟨d1, hc, hx1, hy1, ?_, ?_, ?_, ?_, ?_⟩
  · intro h1 h2
    rw [hx1, if_pos h1, if_neg (by omega)]; omega
  · intro h1 h2
    rw [hx1, if_neg (by omega), if_pos h2]; omega
  · intro h1 h2
    rw [hy1, if_pos h1, if_neg (by omega)]; omega
  · intro h1 h2
    rw [hy1, if_neg (by omega), if_pos h2]; omega
  · intro h1 h2 h3 h4
    have hxe : d1.x = d.x := by
      rw [hx1, if_neg (by omega), if_neg (by omega)]; omega
    have hye : d1.y = d.y := by
      rw [hy1, if_neg (by omega), if_neg (by omega)]; omega
    cases d1
    cases d
    simp only at hxe hye
    rw [hxe, hye]

theorem clamp_corrections_additive_witness :
    ∃ d1, constrainDelta demoWorld
        (draggingWith [some 1, some 2] 1 true false Constraint.noConstraint ⟨12, 0⟩) 1
        ⟨-20, 300⟩ = .ok d1
      ∧ d1 = ⟨0, 270⟩ := by
  obtain ⟨d1, hc, hx, hy, -⟩ := clamp_corrections_additive demoWorld
    (draggingWith [some 1, some 2] 1 true false Constraint.noConstraint ⟨12, 0⟩) 1 0
    ⟨0, 0, 130, 130⟩ ⟨-20, 300, 130, 130⟩ ⟨-20, 300⟩ rfl rfl rfl (by decide)
  refine ⟨d1, hc, ?_⟩
  have hx2 : d1.x = 0 := by rw [hx]; decide
  have hy2 : d1.y = 270 := by rw [hy]; decide
  cases d1
  simp only at hx2 hy2
  rw [hx2, hy2]

/-! ## The selection list never repeats an item -/

theorem setSelected_nodup (s : Dragger) (c : CompId) (flag : Bool)
    (h : s.selectedComponents.Nodup ∧ none ∉ s.selectedComponents) :
    (setSelected s c flag).selectedComponents.Nodup
      ∧ none ∉ (setSelected s c flag).selectedComponents := by
  obtain ⟨hnd, hlive⟩ := h
  rw [setSelected_selectedComponents]
  cases hsel : isSelected s c <;> cases flag <;>
    simp only [if_true, Bool.false_eq_true, if_false]
  · exact ⟨hnd, hlive⟩
  · have hnot : some c ∉ s.selectedComponents := (isSelected_false_iff s c).mp hsel
    refine ⟨?_, by simp [hlive]⟩
    rw [List.nodup_append]
    refine ⟨hnd, List.nodup_singleton _, ?_⟩
    intro a ha hb
    rw [List.mem_singleton] at hb
    exact hnot (hb ▸ ha)
  · exact ⟨hnd.filter _, fun hm => hlive (List.mem_of_mem_filter hm)⟩
  · exact ⟨hnd, hlive⟩

theorem startDragging_config (w : World) (s : Dragger) (c : CompId) (e : MouseEvent)
    (s1 : Dragger) (h : startDragging w s c e = .ok s1) :
    s1.constrainToParent = s.constrainToParent := by
  unfold startDragging at h
  dsimp only at h
  split at h
  · simp at h
  · rw [← Except.ok.inj h]

theorem setSelected_config (s : Dragger) (c : CompId) (flag : Bool) :
    (setSelected s c flag).constrainToParent = s.constrainToParent := by
  unfold setSelected removeSelectedComponent
  dsimp only
  split_ifs <;> rfl

theorem handleMouseDown_list (w : World) (s : Dragger) (c : CompId) (e : MouseEvent)
    (hlive : none ∉ s.selectedComponents) :
    ∃ w1 s1, handleMouseDown w s c e = .ok (w1, s1)
      ∧ w1.bounds = w.bounds ∧ w1.parent = w.parent
      ∧ s1.selectedComponents =
          (if isSelected s c then s.selectedComponents
           else (if (e.mods.shiftDown || e.mods.commandDown) then s.selectedComponents
                 else []) ++ [some c])
      ∧ s1.didStartDragging = s.didStartDragging
      ∧ s1.totalDragDelta = ⟨0, 0⟩
      ∧ s1.componentBeingDragged = some c
      ∧ s1.constrainToParent = s.constrainToParent := by
  cases hsel : isSelected s c
  · obtain ⟨wr, hr, hb, hp⟩ := repaintLoop_live s.selectedComponents w hlive
    cases hmod : (e.mods.shiftDown || e.mods.commandDown)
    · have hset : (setSelected { s with selectedComponents := [] } c true).selectedComponents
          = [some c] := by simp [setSelected, isSelected]
      obtain ⟨s3, h3, hsel3, -, hd3, ht3, -, hg3⟩ := startDragging_live wr
        { setSelected { s with selectedComponents := [] } c true with didJustSelect := true }
        c e (by simp [hset])
      refine ⟨wr.repaint c, s3, ?_, hb, hp, ?_, ?_, ht3, hg3, ?_⟩
      · simp [handleMouseDown, hsel, hmod, deselectAll, hr, h3]
      · rw [hsel3]; simp [hset]
      · rw [hd3]; simp [setSelected, isSelected]
      · rw [startDragging_config _ _ _ _ _ h3]
        exact setSelected_config { s with selectedComponents := [] } c true
    · have hset : (setSelected s c true).selectedComponents
          = s.selectedComponents ++ [some c] := by simp [setSelected, hsel]
      obtain ⟨s3, h3, hsel3, -, hd3, ht3, -, hg3⟩ := startDragging_live w
        { setSelected s c true with didJustSelect := true } c e (by simp [hset, hlive])
      refine ⟨w.repaint c, s3, ?_, rfl, rfl, ?_, ?_, ht3, hg3, ?_⟩
      · simp [handleMouseDown, hsel, hmod, h3]
      · rw [hsel3]; simp [hset]
      · rw [hd3]; simp [setSelected, hsel]
      · rw [startDragging_config _ _ _ _ _ h3]
        exact setSelected_config s c true
  · obtain ⟨s3, h3, hsel3, -, hd3, ht3, -, hg3⟩ := startDragging_live w s c e hlive
    refine ⟨w.repaint c, s3, by simp [handleMouseDown, hsel, h3], rfl, rfl, ?_, hd3, ht3,
      hg3, ?_⟩
    · rw [hsel3]; simp
    · exact startDragging_config _ _ _ _ _ h3

theorem handleMouseDrag_keeps_list (w : World) (s : Dragger) (e : MouseEvent)
    (w1 : World) (s1 : Dragger) (h : handleMouseDrag w s e = .ok (w1, s1)) :
    s1.selectedComponents = s.selectedComponents := by
  unfold handleMouseDrag at h
  split at h
  · rw [← (Prod.mk.inj (Except.ok.inj h)).2]
  · dsimp only at h
    split at h
    · simp at h
    · split at h
      · simp at h
      · rw [← (Prod.mk.inj (Except.ok.inj h)).2]

theorem handleMouseUp_nodup (w : World) (s : Dragger) (c : CompId) (e : MouseEvent)
    (h : s.selectedComponents.Nodup ∧ none ∉ s.selectedComponents) :
    (handleMouseUp w s c e).2.selectedComponents.Nodup
      ∧ none ∉ (handleMouseUp w s c e).2.selectedComponents := by
  have hset := setSelected_nodup s c false h
  unfold handleMouseUp removeGuides
  dsimp only
  split_ifs
  · exact h
  · exact hset
  · exact h

theorem applyCall_nodup (w : World) (s : Dragger) (call : Call) (w1 : World) (s1 : Dragger)
    (h : s.selectedComponents.Nodup ∧ none ∉ s.selectedComponents)
    (hcall : applyCall w s call = .ok (w1, s1)) :
    s1.selectedComponents.Nodup ∧ none ∉ s1.selectedComponents := by
  cases call with
  | setSelected c flag =>
    rw [← (Prod.mk.inj (Except.ok.inj hcall)).2]
    exact setSelected_nodup s c flag h
  | toggleSelection c =>
    rw [← (Prod.mk.inj (Except.ok.inj hcall)).2]
    exact setSelected_nodup s c _ h
  | deselectAll =>
    simp only [applyCall, deselectAll] at hcall
    split at hcall
    · simp at hcall
    · rw [← (Prod.mk.inj (Except.ok.inj hcall)).2]
      simp
  | handleMouseDown c e =>
    obtain ⟨w2, s2, h2, -, -, hlist, -⟩ := handleMouseDown_list w s c e h.2
    have heq : s2 = s1 := (Prod.mk.inj (Except.ok.inj (h2.symm.trans hcall))).2
    subst heq
    rw [hlist]
    cases hsel : isSelected s c
    · have hnot : some c ∉ s.selectedComponents := (isSelected_false_iff s c).mp hsel
      cases hmod : (e.mods.shiftDown || e.mods.commandDown)
      · simp
      · simp only [Bool.false_eq_true, if_false, if_true]
        refine ⟨?_, by simp [h.2]⟩
        rw [List.nodup_append]
        refine ⟨h.1, List.nodup_singleton _, ?_⟩
        intro a ha hb
        rw [List.mem_singleton] at hb
        exact hnot (hb ▸ ha)
    · simpa using h
  | handleMouseUp c e =>
    rw [← (Prod.mk.inj (Except.ok.inj hcall)).2]
    exact handleMouseUp_nodup w s c e h
  | handleMouseDrag e =>
    rw [handleMouseDrag_keeps_list w s e w1 s1 hcall]
    exact h

theorem reached_nodup (w : World) (s : Dragger) (calls : List Call)
    (h : s.selectedComponents.Nodup ∧ none ∉ s.selectedComponents) :
    ∀ st ∈ reached w s calls,
      st.2.selectedComponents.Nodup ∧ none ∉ st.2.selectedComponents := by
  induction calls generalizing w s with
  | nil => intro st hst; simp [reached] at hst
  | cons call rest ih =>
    intro st hst
    unfold reached at hst
    split at hst
    · simp at hst
    · next w1 s1 hcall =>
      have h1 := applyCall_nodup w s call w1 s1 h hcall
      rcases List.mem_cons.mp hst with heq | hmem
      · rw [heq]; exact h1
      · exact ih w1 s1 h1 st hmem

/-- C14: starting from the empty selection, in every state reached by any
sequence of `setSelected`, `toggleSelection`, `deselectAll`,
`handleMouseDown`, `handleMouseUp` and `handleMouseDrag` calls on live
items, the selection list holds no reference more than once (and no
invalidated reference). -/
theorem selection_never_repeats (w : World) (s : Dragger) (calls : List Call)
    (hempty : s.selectedComponents = []) :
    ∀ st ∈ (w, s) :: reached w s calls,
      st.2.selectedComponents.Nodup ∧ none ∉ st.2.selectedComponents := by
  have h0 : s.selectedComponents.Nodup ∧ none ∉ s.selectedComponents := by
    rw [hempty]; simp
  intro st hst
  rcases List.mem_cons.mp hst with heq | hmem
  · rw [heq]; exact h0
  · exact reached_nodup w s calls h0 st hmem

theorem selection_never_repeats_witness :
    (reached demoWorld Dragger.initial demoCalls).length = 9
      ∧ ∀ st ∈ (demoWorld, Dragger.initial) :: reached demoWorld Dragger.initial demoCalls,
          st.2.selectedComponents.Nodup ∧ none ∉ st.2.selectedComponents :=
  ⟨rfl, selection_never_repeats demoWorld Dragger.initial demoCalls rfl⟩

/-! ## Positions during a gesture -/

theorem translated_zero (r : Rectangle) : r.translated ⟨0, 0⟩ = r := by
  cases r
  simp [Rectangle.translated]

theorem translated_translated (r : Rectangle) (a b : Point) :
    (r.translated a).translated b = r.translated (a + b) := by
  cases r
  simp [Rectangle.translated, add_assoc]

theorem reduceOption_nodup (sel : List (Option CompId)) (h : sel.Nodup) :
    sel.reduceOption.Nodup := by
  unfold List.reduceOption
  refine List.Nodup.filterMap ?_ h
  intro a a1 b ha ha1
  simp only [id, Option.mem_def] at ha ha1
  rw [ha, ha1]

theorem handleMouseDrag_gesture (w0 w : World) (s : Dragger) (e : MouseEvent) (g : CompId)
    (hinv : GestureInv w0 w s g) :
    ∃ w1 s1, handleMouseDrag w s e = .ok (w1, s1) ∧ GestureInv w0 w1 s1 g
      ∧ s1.selectedComponents = s.selectedComponents := by
  obtain ⟨hg, hlive, hnd, hpar, hsize, hsel, hrest⟩ := hinv
  by_cases hcond : (!s.didStartDragging &&
      decide (e.distanceFromDragStart < minimumMovementToStartDrag)) = true
  · refine ⟨w, s, by simp only [handleMouseDrag, hcond, if_true],
      ⟨hg, hlive, hnd, hpar, hsize, hsel, hrest⟩, rfl⟩
  · have hproc : s.didStartDragging = true ∨ 10 ≤ e.distanceFromDragStart := by
      cases hd : s.didStartDragging
      · right
        simp [hd, minimumMovementToStartDrag] at hcond
        exact hcond
      · exact Or.inl rfl
    obtain ⟨d1, hc⟩ := constrainDelta_safe w s g (rawDelta w s e g)
      (fun hclamp => ⟨hlive, hpar hclamp⟩)
    have hstep := handleMouseDrag_processed w s e g d1 hproc hg hc
    refine ⟨_, _, hstep, ⟨hg, hlive, hnd, ?_, hsize, ?_, ?_⟩, rfl⟩
    · intro hclamp
      rw [(moveLoop_parent _ _ w).1]
      exact hpar hclamp
    · intro k hk
      have hwk := hsel k hk
      have h1 : 0 ≤ (w.bounds k).w := by rw [hwk]; exact (hsize k).1
      have h2 : 0 ≤ (w.bounds k).h := by rw [hwk]; exact (hsize k).2
      rw [moveLoop_bounds_of_mem _ _ w k (reduceOption_nodup _ hnd) hk h1 h2, hwk,
        translated_translated]
    · intro k hk
      rw [moveLoop_bounds_of_not_mem _ _ w k hk]
      exact hrest k hk

theorem dragAll_gesture (w0 w : World) (s : Dragger) (drags : List MouseEvent) (g : CompId)
    (hinv : GestureInv w0 w s g) :
    ∃ w1 s1, dragAll w s drags = .ok (w1, s1) ∧ GestureInv w0 w1 s1 g
      ∧ s1.selectedComponents = s.selectedComponents := by
  induction drags generalizing w s with
  | nil => exact ⟨w, s, rfl, hinv, rfl⟩
  | cons e rest ih =>
    obtain ⟨w1, s1, hstep, hinv1, hsel1⟩ := handleMouseDrag_gesture w0 w s e g hinv
    obtain ⟨w2, s2, hrun, hinv2, hsel2⟩ := ih w1 s1 hinv1
    exact ⟨w2, s2, by simp only [dragAll, hstep]; exact hrun, hinv2, hsel2.trans hsel1⟩

/-- C18: after pointer-down on a component and any run of drag events, with
clamping and axis-lock in any configuration, every selected item sits at its
position at pointer-down moved by the running total, with the width and
height it had at pointer-down; so any two selected items keep their offset
to each other, and every unselected item is where it was. -/
theorem gesture_position_invariant (w : World) (s : Dragger) (c : CompId)
    (down : MouseEvent) (drags : List MouseEvent)
    (hnd : s.selectedComponents.Nodup) (hlive : none ∉ s.selectedComponents)
    (hsize : ∀ k, 0 ≤ (w.bounds k).w ∧ 0 ≤ (w.bounds k).h)
    (hparent : s.constrainToParent = true → ∃ p, w.parent c = some p) :
    ∃ w1 s1 w2 s2, handleMouseDown w s c down = .ok (w1, s1)
      ∧ dragAll w1 s1 drags = .ok (w2, s2)
      ∧ w1.bounds = w.bounds
      ∧ s2.selectedComponents = s1.selectedComponents
      ∧ (∀ k, isSelected s2 k = true →
          w2.bounds k = ⟨(w.bounds k).x + s2.totalDragDelta.x,
                         (w.bounds k).y + s2.totalDragDelta.y,
                         (w.bounds k).w, (w.bounds k).h⟩)
      ∧ (∀ j k, isSelected s2 j = true → isSelected s2 k = true →
          (w2.bounds j).x - (w2.bounds k).x = (w.bounds j).x - (w.bounds k).x
            ∧ (w2.bounds j).y - (w2.bounds k).y = (w.bounds j).y - (w.bounds k).y)
      ∧ (∀ k, isSelected s2 k = false → w2.bounds k = w.bounds k) := by
  obtain ⟨w1, s1, hdown, hb1, hp1, -, -, htot1, hg1, hcfg1⟩ :=
    handleMouseDown_list w s c down hlive
  have hnd1 := applyCall_nodup w s (Call.handleMouseDown c down) w1 s1 ⟨hnd, hlive⟩ hdown
  have hinv1 : GestureInv w w1 s1 c := by
    refine ⟨hg1, hnd1.2, hnd1.1, ?_, hsize, ?_, ?_⟩
    · intro hclamp
      rw [hp1]
      exact hparent (hcfg1 ▸ hclamp)
    · intro k _
      rw [hb1, htot1, translated_zero]
    · intro k _
      rw [hb1]
  obtain ⟨w2, s2, hrun, hinv2, hsel2⟩ := dragAll_gesture w w1 s1 drags c hinv1
  obtain ⟨-, -, -, -, -, hpos, hrest⟩ := hinv2
  have hat : ∀ k, isSelected s2 k = true →
      w2.bounds k = ⟨(w.bounds k).x + s2.totalDragDelta.x,
                     (w.bounds k).y + s2.totalDragDelta.y,
                     (w.bounds k).w, (w.bounds k).h⟩ :=
    fun k hk => hpos k ((isSelected_iff s2 k).mp hk)
  refine ⟨w1, s1, w2, s2, hdown, hrun, hb1, hsel2, hat, ?_, ?_⟩
  · intro j k hj hk
    rw [hat j hj, hat k hk]
    constructor <;> simp only <;> omega
  · intro k hk
    exact hrest k ((isSelected_false_iff s2 k).mp hk)

theorem gesture_position_invariant_witness :
    ∃ w1 s1 w2 s2,
      handleMouseDown demoWorld
          (setShiftConstrainsDirection
            (setConstrainBoundsToParent (idleWith [some 1]) true ⟨0, 0, 10, 10⟩) true)
          2 (pointerAt 2 true false ⟨3, 4⟩ 0) = .ok (w1, s1)
      ∧ dragAll w1 s1
          [pointerAt 2 true false ⟨5, 4⟩ 2, pointerAt 2 true false ⟨-200, 4⟩ 203,
           pointerAt 2 true false ⟨3, 54⟩ 54] = .ok (w2, s2)
      ∧ w1.bounds = demoWorld.bounds
      ∧ s2.selectedComponents = s1.selectedComponents
      ∧ (∀ k, isSelected s2 k = true →
          w2.bounds k = ⟨(demoWorld.bounds k).x + s2.totalDragDelta.x,
                         (demoWorld.bounds k).y + s2.totalDragDelta.y,
                         (demoWorld.bounds k).w, (demoWorld.bounds k).h⟩)
      ∧ (∀ j k, isSelected s2 j = true → isSelected s2 k = true →
          (w2.bounds j).x - (w2.bounds k).x
              = (demoWorld.bounds j).x - (demoWorld.bounds k).x
            ∧ (w2.bounds j).y - (w2.bounds k).y
              = (demoWorld.bounds j).y - (demoWorld.bounds k).y)
      ∧ (∀ k, isSelected s2 k = false → w2.bounds k = demoWorld.bounds k) :=
  gesture_position_invariant demoWorld
    (setShiftConstrainsDirection
      (setConstrainBoundsToParent (idleWith [some 1]) true ⟨0, 0, 10, 10⟩) true)
    2 (pointerAt 2 true false ⟨3, 4⟩ 0)
    [pointerAt 2 true false ⟨5, 4⟩ 2, pointerAt 2 true false ⟨-200, 4⟩ 203,
     pointerAt 2 true false ⟨3, 54⟩ 54]
    (by decide) (by decide) demoWorld_sizes (fun _ => ⟨0, rfl⟩)

/-! ## The drag threshold -/

/-- C6: the code at a parent that is not at the origin of its own parent.
The parent is 100 x 100 at (50,50); a 30 x 30 box at its top-left corner is
dragged 200 to the right with clamping on and margin 0.  The right-hand
limit is taken from the parent's `getBounds()` (right edge 150, in the
space of the parent's parent) while the box lives in the parent's own space,
whose right edge is 100: the box, which fits, is let out to x = 120 and
ends 50 beyond the parent's right edge. -/
theorem clamp_lets_box_out_of_offset_parent :
    ∃ w1 s1 area1, handleMouseDrag offsetWorld
        (draggingWith [some 1] 1 true false Constraint.noConstraint ⟨0, 0⟩)
        (pointerAt 1 false false ⟨203, 4⟩ 200) = .ok (w1, s1)
      ∧ getAreaOfSelectedComponents w1 s1 = .ok area1
      ∧ s1.amountPermittedOffscreen = ⟨0, 0, 0, 0⟩
      ∧ w1.bounds 0 = ⟨50, 50, 100, 100⟩
      ∧ getLocalBounds w1 0 = ⟨0, 0, 100, 100⟩
      ∧ area1 = ⟨120, 0, 30, 30⟩
      ∧ (s1.amountPermittedOffscreen.subtractedFrom area1).w ≤ (getLocalBounds w1 0).w
      ∧ (s1.amountPermittedOffscreen.subtractedFrom area1).getRight = 150
      ∧ (s1.amountPermittedOffscreen.subtractedFrom area1).getRight
          > (getLocalBounds w1 0).getRight :=
  ⟨_, _, _, rfl, rfl, by decide, by decide, by decide, by decide, by decide, by decide,
    by decide⟩

end MultiComponentDragger
